import Mathlib

/-
Verification of the VK-to-Telegram repost pipeline
(sources: src/services/vk-client.ts, src/services/post-processor.ts,
src/services/telegram-client.ts, src/services/storage-service.ts).

Modelling conventions, used throughout:
* Strings are lists of characters (`Str`).  JavaScript string truthiness
  (`!s`, `s && t`, `s || t`) corresponds to emptiness tests on the list;
  optional string fields that the source only reads through truthiness
  tests are modelled as `Str` with `[]` standing for both `undefined` and
  `""`.
* JavaScript numbers are modelled as `Int` (ids, dimensions) or `ℚ`
  (similarity scores); score arithmetic in the source is modelled exactly
  on `ℚ`.
* `String.prototype.toLowerCase` is modelled by ASCII lowering
  (`Char.toLower`), which agrees with JavaScript on the ASCII range that
  the claims exercise.
* `Array.prototype.sort` (ES2019+) is a stable sort; it is modelled by a
  stable insertion sort (`sortByDesc`) on the comparator key, which is
  extensionally the same function.
* External I/O (Telegram sends, VK audio lookup, ledger persistence) is
  modelled by oracles passed as explicit arguments; a send oracle maps
  the index of an attempted call to `none` (success) or `some msg`
  (a thrown error whose rendered `name: message` text is `msg`).
-/

namespace VKTG

abbrev Str := List Char

deriving instance DecidableEq for Except

/-! ## Definitions: fuzzy matcher (vk-client.ts) -/

/-- Unit edit cost used by `VKClient.levenshteinDistance`
(`str1[i-1] === str2[j-1] ? 0 : 1` in vk-client.ts). -/
def cost (a b : Char) : Nat := if a = b then 0 else 1

/-- Classic edit distance with unit insertion/deletion/substitution costs,
written as the textbook structural recursion on lists.  This is the
reference definition named by the specification ("classic edit distance
with unit costs"); `levenshteinDistance_eq_frontLev` shows the source's
dynamic-programming matrix computes exactly this function. -/
def frontLev : Str → Str → Nat
  | [], ys => ys.length
  | x :: xs, [] => (x :: xs).length
  | x :: xs, y :: ys =>
    min (frontLev xs (y :: ys) + 1)
      (min (frontLev (x :: xs) ys + 1) (frontLev xs ys + cost x y))

/-- The DP matrix of `VKClient.levenshteinDistance` (vk-client.ts).
`dp s1 s2 i j` is the value the source stores in `dp[i][j]`:
row 0 is `j`, column 0 is `i`, and an inner cell is
`min(dp[i-1][j] + 1, dp[i][j-1] + 1, dp[i-1][j-1] + cost)` with
`cost = (str1[i-1] === str2[j-1] ? 0 : 1)`. -/
def dp (s1 s2 : Str) : Nat → Nat → Nat
  | 0, j => j
  | i + 1, 0 => i + 1
  | i + 1, j + 1 =>
    min (dp s1 s2 i (j + 1) + 1)
      (min (dp s1 s2 (i + 1) j + 1)
        (dp s1 s2 i j + cost (s1.getD i ' ') (s2.getD j ' ')))
termination_by i j => (i, j)

/-- `VKClient.levenshteinDistance` (vk-client.ts): the bottom-right cell
`dp[m][n]` of the DP matrix. -/
def levenshteinDistance (s1 s2 : Str) : Nat := dp s1 s2 s1.length s2.length

/-- The character class of the JavaScript regex `\s` (ECMAScript
WhiteSpace ∪ LineTerminator), as matched by `/[^\w\s]/` and `/\s+/` in
`VKClient.normalizeString`. -/
def jsSpace (c : Char) : Bool :=
  c == ' ' || c == '\t' || c == '\n' || c == '\r' ||
  c == '\x0b' || c == '\x0c' || c == '\u00a0' || c == '\u1680' ||
  (decide ('\u2000' ≤ c) && decide (c ≤ '\u200a')) ||
  c == '\u2028' || c == '\u2029' || c == '\u202f' ||
  c == '\u205f' || c == '\u3000' || c == '\ufeff'

/-- The character class of the JavaScript regex `\w`: `[A-Za-z0-9_]`. -/
def jsWord (c : Char) : Bool :=
  (decide ('a' ≤ c) && decide (c ≤ 'z')) ||
  (decide ('A' ≤ c) && decide (c ≤ 'Z')) ||
  (decide ('0' ≤ c) && decide (c ≤ '9')) ||
  c == '_'

/-- `String.prototype.toLowerCase`, modelled on the ASCII range. -/
def toLowerJS (s : Str) : Str := s.map Char.toLower

/-- Collapse every maximal run of characters satisfying `p` into a single
space.  Written with one character of lookahead so that the recursion is
structural (and hence kernel-evaluable); `collapseRuns_cons_pos` recovers
the usual "skip the run" equation. -/
def collapseRuns (p : Char → Bool) : Str → Str
  | [] => []
  | [c] => if p c then [' '] else [c]
  | c :: d :: cs =>
    if p c then
      if p d then collapseRuns p (d :: cs)
      else ' ' :: collapseRuns p (d :: cs)
    else c :: collapseRuns p (d :: cs)

/-- `.replace(/\s+/g, ' ')` of `VKClient.normalizeString`: every maximal
run of `\s` characters becomes a single space. -/
def collapseWs : Str → Str := collapseRuns jsSpace

/-- Removal of trailing `\s` characters (the right half of
`String.prototype.trim`). -/
def trimR : Str → Str
  | [] => []
  | c :: cs => if trimR cs = [] && jsSpace c then [] else c :: trimR cs

/-- `String.prototype.trim`: drop leading and trailing whitespace. -/
def trimJS (l : Str) : Str := trimR (l.dropWhile jsSpace)

/-- `VKClient.normalizeString` (vk-client.ts): guard for a falsy input,
then lowercase, strip every character outside `\w`/`\s`, collapse
whitespace runs, and trim. -/
def normalizeString (str : Str) : Str :=
  if str = [] then []
  else trimJS (collapseWs ((toLowerJS str).filter (fun c => jsWord c || jsSpace c)))

/-- Split into the maximal runs of characters not satisfying `p`,
discarding the separators.  Structural by one character of lookahead;
`wordsBy_cons_neg` recovers the usual takeWhile/dropWhile equation. -/
def wordsBy (p : Char → Bool) : Str → List Str
  | [] => []
  | [c] => if p c then [] else [[c]]
  | c :: d :: cs =>
    if p c then wordsBy p (d :: cs)
    else if p d then [c] :: wordsBy p (d :: cs)
    else
      match wordsBy p (d :: cs) with
      | [] => [[c]]
      | w :: ws => (c :: w) :: ws

/-- The maximal whitespace-free words of a string, in order. -/
def wordsOf : Str → List Str := wordsBy jsSpace

/-- The normalization that claim C4 literally describes: lowercase, strip
exactly the characters that are not letters, digits or whitespace,
collapse whitespace runs, trim.  (Letters and digits are read as the
ASCII classes `Char.isAlpha`/`Char.isDigit`; the counterexample below
uses `_`, which is outside every reading of "letters, digits, or
whitespace".) -/
def claimNormalize (str : Str) : Str :=
  if str = [] then []
  else trimJS (collapseWs ((toLowerJS str).filter (fun c => c.isAlpha || c.isDigit || jsSpace c)))

/-- The amended specification of `normalizeString`, stated in the spec's
own vocabulary but with the corrected character class: lowercase, keep
exactly the ASCII letters, digits, underscore and whitespace, and emit
the whitespace-separated words joined by single spaces (which is the same
as collapsing whitespace runs and trimming). -/
def normalizeAmendedSpec (str : Str) : Str :=
  List.intercalate [' ']
    (wordsOf ((toLowerJS str).filter (fun c => c.isAlpha || c.isDigit || c == '_' || jsSpace c)))

/-- `VKClient.calculateStringSimilarity` (vk-client.ts).  The branches in
source order: both falsy, one falsy, exact equality, containment
(`str1.includes(str2) || str2.includes(str1)`), Levenshtein ratio. -/
def calculateStringSimilarity (str1 str2 : Str) : ℚ :=
  if str1 = [] ∧ str2 = [] then 1
  else if str1 = [] ∨ str2 = [] then 0
  else if str1 = str2 then 1
  else if str2 <:+: str1 ∨ str1 <:+: str2 then
    (min str1.length str2.length : ℚ) / (max str1.length str2.length : ℚ)
  else 1 - (levenshteinDistance str1 str2 : ℚ) / (max str1.length str2.length : ℚ)

/-- The pairwise similarity as claim C5 defines it, with `frontLev` as
the classic reference edit distance. -/
def simSpec (a b : Str) : ℚ :=
  if a = [] ∧ b = [] then 1
  else if a = [] ∨ b = [] then 0
  else if a = b then 1
  else if a <:+: b ∨ b <:+: a then
    (min a.length b.length : ℚ) / (max a.length b.length : ℚ)
  else 1 - (frontLev a b : ℚ) / (max a.length b.length : ℚ)

/-- One candidate track from the VK audio search, with the fields the
matcher reads (`artist`, `title`) and the payload that the caller
consumes (`url`, standing for the rest of the track object). -/
structure VKTrack where
  artist : Str
  title : Str
  url : Str
deriving DecidableEq

/-- The composite score `VKClient.findBestAudioMatch` assigns to one
candidate: `artistSimilarity * 0.6 + titleSimilarity * 0.4`, where both
similarities compare the normalized target with the normalized candidate
field. -/
def trackScore (targetArtist targetTitle : Str) (tr : VKTrack) : ℚ :=
  calculateStringSimilarity (normalizeString targetArtist) (normalizeString tr.artist) * (6 / 10) +
  calculateStringSimilarity (normalizeString targetTitle) (normalizeString tr.title) * (4 / 10)

/-- Stable insertion into a list that is already sorted by descending
key: the new element goes before the first strictly smaller key, after
any equal keys already present. -/
def insertDesc {α : Type} (key : α → ℚ) (x : α) : List α → List α
  | [] => [x]
  | y :: ys => if key x ≥ key y then x :: y :: ys else y :: insertDesc key x ys

/-- Stable descending sort by key: the model of
`scoredTracks.sort((a, b) => b.score - a.score)` (ES2019+ `Array.sort`
is stable, and this comparator orders by descending score). -/
def sortByDesc {α : Type} (key : α → ℚ) : List α → List α
  | [] => []
  | x :: xs => insertDesc key x (sortByDesc key xs)

/-- `VKClient.findBestAudioMatch` (vk-client.ts): score every candidate,
sort by descending score, and accept the top candidate exactly when its
score reaches the 0.7 threshold. -/
def findBestAudioMatch (tracks : List VKTrack) (targetArtist targetTitle : Str) :
    Option VKTrack :=
  if tracks = [] then none
  else
    match sortByDesc (fun p => p.2)
        (tracks.map (fun tr => (tr, trackScore targetArtist targetTitle tr))) with
    | [] => none
    | p :: _ => if p.2 ≥ 7 / 10 then some p.1 else none

/-! ## Definitions: data model (vk-client.ts) -/

/-- One rendition of a photo (`photo.sizes[i]`). -/
structure PhotoSize where
  url : Str
  width : Int
  height : Int
deriving DecidableEq

/-- Payload of a photo attachment. -/
structure PhotoPayload where
  sizes : List PhotoSize
deriving DecidableEq

/-- Payload of a document attachment (`attachment.doc`): `type` is the
provider's numeric subtype marker (3 is the GIF sentinel). -/
structure DocPayload where
  url : Str
  title : Str
  ext : Str
  type : Int
deriving DecidableEq

/-- Payload of an audio attachment (`attachment.audio`); absent
`url`/`artist`/`title` are the empty string (see the truthiness
convention above). -/
structure AudioPayload where
  url : Str
  artist : Str
  title : Str
deriving DecidableEq

/-- Payload of a video attachment (`attachment.video`). -/
structure VideoPayload where
  owner_id : Int
  id : Int
  access_key : Str
deriving DecidableEq

/-- Payload of a link attachment (`attachment.link`). -/
structure LinkPayload where
  url : Str
deriving DecidableEq

/-- A VK attachment, discriminated by its `type` string; `other` stands
for every type the pipeline does not read (polls, etc.). -/
inductive Attachment where
  | photo (p : PhotoPayload)
  | doc (d : DocPayload)
  | audio (a : AudioPayload)
  | video (v : VideoPayload)
  | link (l : LinkPayload)
  | other
deriving DecidableEq

/-- A VK wall post (the fields the pipeline reads). -/
structure VKPost where
  id : Int
  owner_id : Int
  date : Int
  text : Str
  attachments : Option (List Attachment)
  is_pinned : Bool
deriving DecidableEq

/-- The record `VKClient.getDocumentAttachments` builds for a generic
document: `{ url, title, ext }`. -/
structure DocRef where
  url : Str
  title : Str
  ext : Str
deriving DecidableEq

/-- The comparator key of `photo.sizes.sort((a, b) => b.width*b.height -
a.width*a.height)`: the rendition area. -/
def photoSizeArea (s : PhotoSize) : ℚ := ((s.width * s.height : Int) : ℚ)

/-- The body of `VKClient.getPhotoAttachments`, walking the attachment
list.  For each photo attachment the source sorts `photo.sizes` IN PLACE
(descending by area; `Array.prototype.sort` mutates) and reads
`sizes[0].url`; reading `sizes[0]` of an empty array throws.  The result
carries both the extracted urls and the attachment list as mutated so
far; on a throw the partially mutated list is discarded, as the caller
only catches the error. -/
def extractPhotoUrls : List Attachment → Except Unit (List Str × List Attachment)
  | [] => .ok ([], [])
  | a :: as =>
    match a with
    | .photo p =>
      match sortByDesc photoSizeArea p.sizes with
      | [] => .error ()
      | s :: rest =>
        match extractPhotoUrls as with
        | .error e => .error e
        | .ok (us, as2) => .ok (s.url :: us, .photo ⟨s :: rest⟩ :: as2)
    | b =>
      match extractPhotoUrls as with
      | .error e => .error e
      | .ok (us, as2) => .ok (us, b :: as2)

/-- `VKClient.getPhotoAttachments` (vk-client.ts): the url of the largest
rendition of each photo attachment, together with the post as left
behind by the in-place sorts. -/
def getPhotoAttachments (post : VKPost) : Except Unit (List Str × VKPost) :=
  match post.attachments with
  | none => .ok ([], post)
  | some as =>
    match extractPhotoUrls as with
    | .error e => .error e
    | .ok (us, as2) => .ok (us, { post with attachments := some as2 })

/-- The three-way GIF test of `VKClient.getGifAttachments` on a document
payload: `ext === 'gif' || type === 3 || (title && title.toLowerCase()
.endsWith('.gif'))`. -/
def gifDocTest (d : DocPayload) : Bool :=
  d.ext == "gif".data || d.type == 3 ||
  (d.title ≠ [] && ".gif".data.isSuffixOf (toLowerJS d.title))

/-- `VKClient.getGifAttachments` (vk-client.ts): urls of the document
attachments that pass the GIF test, in source order. -/
def getGifAttachments (post : VKPost) : List Str :=
  match post.attachments with
  | none => []
  | some as =>
    (as.filter (fun a =>
      match a with
      | .doc d => gifDocTest d
      | _ => false)).map (fun a =>
      match a with
      | .doc d => d.url
      | _ => [])

/-- `VKClient.getAudioAttachments` (vk-client.ts): the
`{ url, artist, title }` records of the audio attachments, in order. -/
def getAudioAttachments (post : VKPost) : List AudioPayload :=
  match post.attachments with
  | none => []
  | some as =>
    (as.filter (fun a =>
      match a with
      | .audio _ => true
      | _ => false)).map (fun a =>
      match a with
      | .audio au => { url := au.url, artist := au.artist, title := au.title }
      | _ => ⟨[], [], []⟩)

/-- `VKClient.getVideoAttachments` (vk-client.ts); not consumed by the
post processor. -/
def getVideoAttachments (post : VKPost) : List VideoPayload :=
  match post.attachments with
  | none => []
  | some as =>
    (as.filter (fun a =>
      match a with
      | .video _ => true
      | _ => false)).map (fun a =>
      match a with
      | .video v => v
      | _ => ⟨0, 0, []⟩)

/-- `VKClient.getLinkAttachments` (vk-client.ts): link urls in order. -/
def getLinkAttachments (post : VKPost) : List Str :=
  match post.attachments with
  | none => []
  | some as =>
    (as.filter (fun a =>
      match a with
      | .link _ => true
      | _ => false)).map (fun a =>
      match a with
      | .link l => l.url
      | _ => [])

/-- `VKClient.getDocumentAttachments` (vk-client.ts): document
attachments that fail the GIF test, as `{ url, title, ext }` records. -/
def getDocumentAttachments (post : VKPost) : List DocRef :=
  match post.attachments with
  | none => []
  | some as =>
    (as.filter (fun a =>
      match a with
      | .doc d =>
        !(d.ext == "gif".data || d.type == 3 ||
          (d.title ≠ [] && ".gif".data.isSuffixOf (toLowerJS d.title)))
      | _ => false)).map (fun a =>
      match a with
      | .doc d => ⟨d.url, d.title, d.ext⟩
      | _ => ⟨[], [], []⟩)

/-- The document payloads of a post, in order (derived view used to
state the C7 partition). -/
def docPayloads (post : VKPost) : List DocPayload :=
  match post.attachments with
  | none => []
  | some as =>
    as.filterMap (fun a =>
      match a with
      | .doc d => some d
      | _ => none)

/-- `VKClient.getPostUrl` (vk-client.ts). -/
def getPostUrl (post : VKPost) : Str :=
  "https://vk.com/wall".data ++ (toString post.owner_id).data ++
    "_".data ++ (toString post.id).data

/-! ## Definitions: Telegram dispatch (post-processor.ts) -/

/-- One outbound Telegram API call, as issued by the telegram client
wrapper. -/
inductive TgCall where
  | sendMessage (text : Str)
  | sendPhoto (url : Str) (caption : Str)
  | sendMediaGroup (urls : List Str) (caption : Str)
  | sendAnimation (url : Str) (caption : Str)
  | sendAudio (url : Str) (caption : Str) (title : Str) (performer : Str)
  | sendDocument (url : Str) (caption : Str)
deriving DecidableEq

/-- A send oracle: maps the index of an attempted outbound call to
`none` (the call succeeds) or `some msg` (the call throws, and `msg` is
the rendered `name: message` text the catch blocks log). -/
abbrev SendOracle := Nat → Option Str

/-- The plain-text lines `sendContentToTelegram` appends for audio refs
that still have no url but do have artist and title. -/
def audioLinesText (audios : List AudioPayload) : Str :=
  let noUrl := audios.filter (fun a => a.url = [] && a.artist ≠ [] && a.title ≠ [])
  if noUrl = [] then []
  else "\n\nАудио:".data ++
    (noUrl.map (fun a => "\n🎵 ".data ++ a.artist ++ " - ".data ++ a.title)).flatten

/-- The fallback text of the catch block of `sendContentToTelegram`:
the unsent caption annotated with the error marker. -/
def errWrap (text m : Str) : Str :=
  text ++ "\n\n[Ошибка при отправке медиа: ".data ++ m ++ "]".data

/-- Result of one block of the dispatch body: the calls attempted so
far, the current caption text, the next call index, and on failure the
text still unsent plus the error message. -/
inductive StepRes where
  | ok (trace : List TgCall) (text : Str) (idx : Nat)
  | failed (trace : List TgCall) (text : Str) (idx : Nat) (msg : Str)
deriving DecidableEq

/-- The photo block of `sendContentToTelegram`: one `sendPhoto` for a
single photo, one `sendMediaGroup` for two or more, nothing otherwise;
the caption text is cleared after a successful send. -/
def runPhotos (oracle : SendOracle) (photos : List Str) (text : Str) : StepRes :=
  match photos with
  | [] => .ok [] text 0
  | [p] =>
    match oracle 0 with
    | some m => .failed [.sendPhoto p text] text 1 m
    | none => .ok [.sendPhoto p text] [] 1
  | ps =>
    match oracle 0 with
    | some m => .failed [.sendMediaGroup ps text] text 1 m
    | none => .ok [.sendMediaGroup ps text] [] 1

/-- The animation loop of `sendContentToTelegram`. -/
def runAnimations (oracle : SendOracle) :
    List Str → Str → List TgCall → Nat → StepRes
  | [], text, tr, idx => .ok tr text idx
  | g :: gs, text, tr, idx =>
    match oracle idx with
    | some m => .failed (tr ++ [.sendAnimation g text]) text (idx + 1) m
    | none => runAnimations oracle gs [] (tr ++ [.sendAnimation g text]) (idx + 1)

/-- The audio loop of `sendContentToTelegram`; the caller passes the
refs filtered to those with a url, and the loop re-checks the url as the
source does. -/
def runAudios (oracle : SendOracle) :
    List AudioPayload → Str → List TgCall → Nat → StepRes
  | [], text, tr, idx => .ok tr text idx
  | a :: as, text, tr, idx =>
    if a.url ≠ [] then
      match oracle idx with
      | some m => .failed (tr ++ [.sendAudio a.url text a.title a.artist]) text (idx + 1) m
      | none => runAudios oracle as [] (tr ++ [.sendAudio a.url text a.title a.artist]) (idx + 1)
    else runAudios oracle as text tr idx

/-- The document loop of `sendContentToTelegram`: captioned with the
remaining text, or with `Документ: {title}` when none remains. -/
def runDocs (oracle : SendOracle) :
    List DocRef → Str → List TgCall → Nat → StepRes
  | [], text, tr, idx => .ok tr text idx
  | d :: ds, text, tr, idx =>
    match oracle idx with
    | some m =>
      .failed (tr ++ [.sendDocument d.url
        (if text ≠ [] then text else "Документ: ".data ++ d.title)]) text (idx + 1) m
    | none =>
      runDocs oracle ds []
        (tr ++ [.sendDocument d.url
          (if text ≠ [] then text else "Документ: ".data ++ d.title)]) (idx + 1)

/-- The try-block of `sendContentToTelegram` in the media case: photos,
then animations, then audios with url, then documents, stopping at the
first send that throws. -/
def sendCore (oracle : SendOracle) (text1 : Str) (photos gifs : List Str)
    (audios : List AudioPayload) (docs : List DocRef) : StepRes :=
  match runPhotos oracle photos text1 with
  | .failed tr t idx m => .failed tr t idx m
  | .ok tr t idx =>
    match runAnimations oracle gifs t tr idx with
    | .failed tr2 t2 idx2 m => .failed tr2 t2 idx2 m
    | .ok tr2 t2 idx2 =>
      match runAudios oracle (audios.filter (fun a => a.url ≠ [])) t2 tr2 idx2 with
      | .failed tr3 t3 idx3 m => .failed tr3 t3 idx3 m
      | .ok tr3 t3 idx3 => runDocs oracle docs t3 tr3 idx3

/-- `PostProcessor.sendContentToTelegram` (post-processor.ts), as the
sequence of Telegram calls it attempts: append the audio plain-text
lines to the caption; send text alone when there is no media at all;
otherwise run the media blocks in order, and on the first thrown send
attempt one fallback text message (annotated with the error marker) if
unsent caption text remains. -/
def sendContentToTelegram (oracle : SendOracle) (text : Str)
    (photos gifs : List Str) (audios : List AudioPayload) (docs : List DocRef) :
    List TgCall :=
  let text1 := text ++ audioLinesText audios
  if photos = [] ∧ gifs = [] ∧ audios.filter (fun a => a.url ≠ []) = [] ∧ docs = [] then
    match oracle 0 with
    | some m =>
      [.sendMessage text1] ++ (if text1 ≠ [] then [.sendMessage (errWrap text1 m)] else [])
    | none => [.sendMessage text1]
  else
    match sendCore oracle text1 photos gifs audios docs with
    | .ok tr _ _ => tr
    | .failed tr t _ m => tr ++ (if t ≠ [] then [.sendMessage (errWrap t m)] else [])

/-! ## Definitions: the expected dispatch shape (claim C1) -/

/-- The skeleton of one outbound media unit, before captions are
assigned. -/
inductive UnitSkel where
  | onePhoto (url : Str)
  | album (urls : List Str)
  | animation (url : Str)
  | audioU (a : AudioPayload)
  | docU (d : DocRef)
deriving DecidableEq

/-- Render a unit skeleton with a given caption; a document whose
would-be caption is empty is captioned with its own title instead. -/
def renderSkel (cap : Str) : UnitSkel → TgCall
  | .onePhoto u => .sendPhoto u cap
  | .album us => .sendMediaGroup us cap
  | .animation u => .sendAnimation u cap
  | .audioU a => .sendAudio a.url cap a.title a.artist
  | .docU d => .sendDocument d.url (if cap ≠ [] then cap else "Документ: ".data ++ d.title)

/-- Assign captions to a list of unit skeletons: the first unit carries
the composed caption, every later unit carries the empty caption (with
the document-title exception inside `renderSkel`). -/
def withCaptions (composed : Str) : Bool → List UnitSkel → List TgCall
  | _, [] => []
  | isFirst, s :: rest =>
    renderSkel (if isFirst then composed else []) s :: withCaptions composed false rest

/-- The photo part of the expected unit sequence. -/
def photoSkels (photos : List Str) : List UnitSkel :=
  match photos with
  | [] => []
  | [p] => [.onePhoto p]
  | ps => [.album ps]

/-- The outbound units claim C1 prescribes: photos (single photo or one
album), then animations, then audios with url, then documents, with the
composed caption on the first unit only. -/
def expectedUnits (composed : Str) (photos gifs : List Str)
    (audios : List AudioPayload) (docs : List DocRef) : List TgCall :=
  withCaptions composed true
    (photoSkels photos ++ gifs.map .animation ++
      (audios.filter (fun a => a.url ≠ [])).map .audioU ++ docs.map .docU)

/-- The attachment list of a post (`post.attachments`, `[]` when the
field is absent). -/
def attachmentList (post : VKPost) : List Attachment :=
  match post.attachments with
  | none => []
  | some as => as

/-- Is a Telegram call an audio send? -/
def isAudioCall : TgCall → Bool
  | .sendAudio _ _ _ _ => true
  | _ => false

/-! ## Definitions: post processor (post-processor.ts) -/

/-- The track object `VKClient.findAudioTrack` resolves (the fields the
post processor reads). -/
structure FoundTrack where
  artist : Str
  title : Str
  url : Str
deriving DecidableEq

/-- A lookup oracle standing for `findAudioTrack artist title`:
`.error` models a thrown lookup, `.ok none` no match, `.ok (some t)` a
resolved track. -/
abbrev LookupOracle := Str → Str → Except Unit (Option FoundTrack)

/-- The per-ref body of `PostProcessor.processAudioAttachments`: keep a
ref that has a url; try the lookup when artist and title are both
present, attaching the found url only when it is truthy; keep the ref
unchanged in every failure path (thrown lookup, no match, found track
without url, missing artist or title). -/
def resolveAudios (lookup : LookupOracle) : List AudioPayload → List AudioPayload
  | [] => []
  | a :: as =>
    (if a.url ≠ [] then a
     else if a.artist ≠ [] ∧ a.title ≠ [] then
       match lookup a.artist a.title with
       | .ok (some t) =>
         if t.url ≠ [] then { url := t.url, artist := a.artist, title := a.title } else a
       | .ok none => a
       | .error _ => a
     else a) :: resolveAudios lookup as

/-- `PostProcessor.processAudioAttachments` (post-processor.ts). -/
def processAudioAttachments (lookup : LookupOracle) (post : VKPost) :
    List AudioPayload :=
  resolveAudios lookup (getAudioAttachments post)

/-- A post's dedup key: the pair behind the string
`"{owner_id}_{id}"`. -/
abbrev PostKey := Int × Int

/-- `StorageService.markPostAsProcessed`: add the key to the in-memory
set, then persist; a failing persist throws AFTER the in-memory add.
`saveFails` is the persistence oracle; the returned flag reports the
throw. -/
def markPostAsProcessed (saveFails : Bool) (key : PostKey) (st : List PostKey) :
    List PostKey × Bool :=
  (if st.contains key then st else st ++ [key], saveFails)

/-- Terminal state of `processPost` for one post. -/
inductive PostOutcome where
  | skippedSeen
  | donePinned
  | success
  | caughtError
deriving DecidableEq

/-- The link list `processPost` appends to the text. -/
def linksText (linkUrls : List Str) : Str :=
  if linkUrls = [] then []
  else "\n\nСсылки:".data ++
    (linkUrls.map (fun u =>
      "\n<a href=\"".data ++ u ++ "\">".data ++ u ++ "</a>".data)).flatten

/-- `PostProcessor.processPost` (post-processor.ts): skip a seen post;
mark and skip a pinned post; otherwise compose the text (original text,
source link, link list), extract attachments, resolve audio refs,
dispatch, and mark as processed.  Every error raised inside the body is
caught: a malformed photo attachment aborts before any dispatch or mark,
and a throwing persist is caught after the in-memory add.  Returns the
updated key set, the attempted Telegram calls, and the outcome. -/
def processPost (lookup : LookupOracle) (send : SendOracle) (saveFails : Bool)
    (st : List PostKey) (post : VKPost) :
    List PostKey × List TgCall × PostOutcome :=
  let key : PostKey := (post.owner_id, post.id)
  if st.contains key then (st, [], .skippedSeen)
  else if post.is_pinned then
    match markPostAsProcessed saveFails key st with
    | (st2, threw) => (st2, [], if threw then .caughtError else .donePinned)
  else
    match getPhotoAttachments post with
    | .error _ => (st, [], .caughtError)
    | .ok (photoUrls, post2) =>
      let text0 := post.text ++ "\n\n<a href=\"".data ++ getPostUrl post ++
        "\">Оригинальный пост</a>".data
      let gifUrls := getGifAttachments post2
      let audios := processAudioAttachments lookup post2
      let linkUrls := getLinkAttachments post2
      let docs := getDocumentAttachments post2
      let text1 := text0 ++ linksText linkUrls
      let trace := sendContentToTelegram send text1 photoUrls gifUrls audios docs
      match markPostAsProcessed saveFails key st with
      | (st2, threw) => (st2, trace, if threw then .caughtError else .success)

/-- The batch loop of `PostProcessor.processNewPosts`: posts in reverse
feed order (oldest first), sequentially; each post's errors are caught
inside `processPost`, so the loop always visits every post.  `sendFor`
gives the send oracle of the k-th processed post. -/
def processPostsLoop (lookup : LookupOracle) (sendFor : Nat → SendOracle)
    (saveFails : Bool) :
    List VKPost → List PostKey → Nat → List PostKey × List PostOutcome
  | [], st, _ => (st, [])
  | p :: ps, st, k =>
    match processPost lookup (sendFor k) saveFails st p with
    | (st2, _, oc) =>
      match processPostsLoop lookup sendFor saveFails ps st2 (k + 1) with
      | (st3, ocs) => (st3, oc :: ocs)

/-- `PostProcessor.processNewPosts` (post-processor.ts), given the
fetched batch. -/
def processNewPosts (lookup : LookupOracle) (sendFor : Nat → SendOracle)
    (saveFails : Bool) (posts : List VKPost) (st : List PostKey) :
    List PostKey × List PostOutcome :=
  processPostsLoop lookup sendFor saveFails posts.reverse st 0

/-! ## Definitions: concrete sample data, used by the witness theorems -/

/-- A lookup oracle whose search always throws. -/
def exLookup : LookupOracle := fun _ _ => Except.error ()

/-- A send oracle under which every call succeeds. -/
def exSendOk : SendOracle := fun _ => none

/-- A send oracle whose first call throws and whose later calls
succeed. -/
def exSendFail : SendOracle := fun i => if i = 0 then some ("Error: boom".data) else none

/-- An audio ref with no url but with artist and title. -/
def exAudioNoUrl : AudioPayload := ⟨[], "A".data, "B".data⟩

/-- An audio ref that already carries a url. -/
def exAudioUrl : AudioPayload := ⟨"http://a".data, "C".data, "D".data⟩

/-- A generic document record. -/
def exDocRef : DocRef := ⟨"http://d".data, "T".data, "pdf".data⟩

/-- A document payload with extension `gif` (and a non-GIF subtype
marker, so only the extension clause of the three-way test fires). -/
def exGifDoc : DocPayload := ⟨"http://g".data, "t".data, "gif".data, 0⟩

/-- A document payload failing every clause of the three-way GIF test. -/
def exPdfDoc : DocPayload := ⟨"http://d".data, "T".data, "pdf".data, 1⟩

/-- A post whose single photo attachment has an empty `sizes` array, so
`sizes[0].url` throws inside `getPhotoAttachments`. -/
def exBadPost : VKPost :=
  ⟨1, -2, 0, "hello".data, some [Attachment.photo ⟨[]⟩], false⟩

/-- A small photo rendition (area 1). -/
def exSizeSmall : PhotoSize := ⟨"small".data, 1, 1⟩

/-- A large photo rendition (area 4). -/
def exSizeBig : PhotoSize := ⟨"big".data, 2, 2⟩

/-- A post with one photo whose renditions are stored in ascending area
order, so the in-place sort reorders them. -/
def exPhotoPost : VKPost :=
  ⟨3, -2, 0, "t".data, some [Attachment.photo ⟨[exSizeSmall, exSizeBig]⟩], false⟩

/-- `exPhotoPost` as `getPhotoAttachments` hands it back: the photo's
`sizes` array now sorted by descending area. -/
def exPhotoPostSorted : VKPost :=
  ⟨3, -2, 0, "t".data, some [Attachment.photo ⟨[exSizeBig, exSizeSmall]⟩], false⟩

/-- A post with an empty attachment list. -/
def exEmptyPost : VKPost := ⟨4, -2, 0, "t".data, some [], false⟩

/-- A post mixing a GIF document, a generic document, an audio and a
link. -/
def exMixedPost : VKPost :=
  ⟨5, -2, 0, "m".data,
    some [Attachment.doc exGifDoc, Attachment.doc exPdfDoc,
      Attachment.audio exAudioUrl, Attachment.link ⟨"http://l".data⟩], false⟩

/-- A candidate track whose fields normalize to the example target's. -/
def exTrack : VKTrack := ⟨"A".data, "B".data, "http://t".data⟩

/-- A candidate track with empty artist and title, scoring 0 against the
example target. -/
def exTrackFar : VKTrack := ⟨[], [], "u".data⟩

end VKTG

namespace VKTG

/-! ## Theorems: Levenshtein DP vs classic edit distance -/

theorem cost_le_one (a b : Char) : cost a b ≤ 1 := by
  unfold cost; split <;> omega

@[simp] theorem frontLev_nil_left (ys : Str) : frontLev [] ys = ys.length := by
  cases ys <;> simp [frontLev]

@[simp] theorem frontLev_nil_right (xs : Str) : frontLev xs [] = xs.length := by
  cases xs <;> simp [frontLev]

theorem frontLev_cons_cons (x y : Char) (xs ys : Str) :
    frontLev (x :: xs) (y :: ys) =
      min (frontLev xs (y :: ys) + 1)
        (min (frontLev (x :: xs) ys + 1) (frontLev xs ys + cost x y)) := by
  simp [frontLev]

/-- The classic edit distance satisfies the "extend both strings at the
back" recurrence that the source builds its DP matrix from. -/
theorem frontLev_snoc (u v : Str) (x y : Char) :
    frontLev (u ++ [x]) (v ++ [y]) =
      min (frontLev u (v ++ [y]) + 1)
        (min (frontLev (u ++ [x]) v + 1) (frontLev u v + cost x y)) := by
  have main : ∀ n (u v : Str) (x y : Char), u.length + v.length ≤ n →
      frontLev (u ++ [x]) (v ++ [y]) =
        min (frontLev u (v ++ [y]) + 1)
          (min (frontLev (u ++ [x]) v + 1) (frontLev u v + cost x y)) := by
    intro n
    induction n with
    | zero =>
      intro u v x y h
      have hu : u = [] := by cases u <;> simp at h ⊢
      have hv : v = [] := by cases v <;> simp at h ⊢
      subst hu; subst hv
      simp only [List.nil_append, frontLev_cons_cons, frontLev_nil_left,
        frontLev_nil_right, List.length_nil, List.length_cons]
    | succ n ihn =>
      intro u v x y h
      cases u with
      | nil =>
        cases v with
        | nil =>
          simp only [List.nil_append, frontLev_cons_cons, frontLev_nil_left,
            frontLev_nil_right, List.length_nil, List.length_cons]
        | cons b v' =>
          have ih := ihn [] v' x y (by simp at h ⊢; omega)
          simp only [List.nil_append, List.cons_append] at ih ⊢
          simp only [frontLev_cons_cons] at ih ⊢
          simp only [frontLev_nil_left, frontLev_nil_right, List.length_append,
            List.length_nil, List.length_cons] at ih ⊢
          omega
      | cons a u' =>
        cases v with
        | nil =>
          have ih := ihn u' [] x y (by simp at h ⊢; omega)
          simp only [List.nil_append, List.append_nil, List.cons_append] at ih ⊢
          simp only [frontLev_cons_cons] at ih ⊢
          simp only [frontLev_nil_left, frontLev_nil_right, List.length_append,
            List.length_nil, List.length_cons] at ih ⊢
          omega
        | cons b v' =>
          have ih1 := ihn u' (b :: v') x y (by simp at h ⊢; omega)
          have ih2 := ihn (a :: u') v' x y (by simp at h ⊢; omega)
          have ih3 := ihn u' v' x y (by simp at h ⊢; omega)
          simp only [List.cons_append] at ih1 ih2 ih3 ⊢
          simp only [frontLev_cons_cons] at ih1 ih2 ih3 ⊢
          clear ihn h
          rw [ih1, ih2, ih3]
          simp only [← Nat.add_min_add_right]
          ring_nf
          ac_rfl
  exact main (u.length + v.length) u v x y le_rfl

theorem take_succ_getD (l : Str) (i : Nat) (h : i < l.length) (d : Char) :
    l.take (i + 1) = l.take i ++ [l.getD i d] := by
  rw [List.take_succ]
  simp [List.getElem?_eq_getElem h, List.getD_eq_getElem?_getD]

/-- Cell (i, j) of the source's DP matrix is the classic edit distance of
the length-i and length-j prefixes. -/
theorem dp_eq_frontLev (s1 s2 : Str) (i j : Nat)
    (hi : i ≤ s1.length) (hj : j ≤ s2.length) :
    dp s1 s2 i j = frontLev (s1.take i) (s2.take j) := by
  have main : ∀ n i j, i + j ≤ n → i ≤ s1.length → j ≤ s2.length →
      dp s1 s2 i j = frontLev (s1.take i) (s2.take j) := by
    intro n
    induction n with
    | zero =>
      intro i j h hi hj
      have hi0 : i = 0 := by omega
      have hj0 : j = 0 := by omega
      subst hi0; subst hj0
      simp [dp]
    | succ n ihn =>
      intro i j h hi hj
      match i, j with
      | 0, j =>
        simp [dp, List.length_take]
        omega
      | i + 1, 0 =>
        simp [dp, List.length_take]
        omega
      | i + 1, j + 1 =>
        have ih1 := ihn i (j + 1) (by omega) (by omega) hj
        have ih2 := ihn (i + 1) j (by omega) hi (by omega)
        have ih3 := ihn i j (by omega) (by omega) (by omega)
        rw [take_succ_getD s1 i (by omega) ' '] at ih2 ⊢
        rw [take_succ_getD s2 j (by omega) ' '] at ih1 ⊢
        rw [frontLev_snoc]
        simp only [dp]
        rw [ih1, ih2, ih3]
  exact main (i + j) i j le_rfl hi hj

/-- The source's DP computes exactly the classic edit distance. -/
theorem levenshteinDistance_eq_frontLev (s1 s2 : Str) :
    levenshteinDistance s1 s2 = frontLev s1 s2 := by
  have h := dp_eq_frontLev s1 s2 s1.length s2.length le_rfl le_rfl
  simpa [levenshteinDistance, List.take_length] using h

/-- Edit distance is at most the length of the longer string. -/
theorem frontLev_le_max (xs ys : Str) :
    frontLev xs ys ≤ max xs.length ys.length := by
  have main : ∀ n (xs ys : Str), xs.length + ys.length ≤ n →
      frontLev xs ys ≤ max xs.length ys.length := by
    intro n
    induction n with
    | zero =>
      intro xs ys h
      have hx : xs = [] := by cases xs <;> simp at h ⊢
      have hy : ys = [] := by cases ys <;> simp at h ⊢
      subst hx; subst hy; simp
    | succ n ihn =>
      intro xs ys h
      cases xs with
      | nil => simp
      | cons x xs =>
        cases ys with
        | nil => simp
        | cons y ys =>
          have ih := ihn xs ys (by simp at h ⊢; omega)
          have hc := cost_le_one x y
          rw [frontLev_cons_cons]
          have hmin : min (frontLev xs (y :: ys) + 1)
              (min (frontLev (x :: xs) ys + 1) (frontLev xs ys + cost x y)) ≤
              frontLev xs ys + cost x y :=
            le_trans (min_le_right _ _) (min_le_right _ _)
          simp only [List.length_cons]
          omega
  exact main (xs.length + ys.length) xs ys le_rfl

theorem sim_eq_and_bounds (a b : Str) :
    calculateStringSimilarity a b = simSpec a b ∧
    0 ≤ calculateStringSimilarity a b ∧ calculateStringSimilarity a b ≤ 1 := by
  unfold calculateStringSimilarity simSpec
  by_cases h1 : a = [] ∧ b = []
  · simp [h1]
  · by_cases h2 : a = [] ∨ b = []
    · simp only [if_neg h1, if_pos h2]
      norm_num
    · push_neg at h2
      have la : 0 < a.length := List.length_pos.mpr h2.1
      have lb : 0 < b.length := List.length_pos.mpr h2.2
      have hM : (0 : ℚ) < max (a.length : ℚ) (b.length : ℚ) :=
        lt_max_of_lt_left (by exact_mod_cast la)
      by_cases h3 : a = b
      · simp [h1, h3, h2.2]
      · have h2' : ¬(a = [] ∨ b = []) := by
          push_neg
          exact h2
        by_cases h4 : b <:+: a ∨ a <:+: b
        · have h4' : a <:+: b ∨ b <:+: a := h4.symm
          simp only [if_neg h1, if_neg h2', if_neg h3, if_pos h4, if_pos h4']
          refine ⟨by trivial, ?_, ?_⟩
          · positivity
          · rw [div_le_one hM]
            exact le_trans (min_le_left _ _) (le_max_left _ _)
        · have h4' : ¬(a <:+: b ∨ b <:+: a) := fun h => h4 h.symm
          simp only [if_neg h1, if_neg h2', if_neg h3, if_neg h4, if_neg h4']
          have hd : (levenshteinDistance a b : ℚ) ≤ max (a.length : ℚ) (b.length : ℚ) := by
            have h := frontLev_le_max a b
            rw [levenshteinDistance_eq_frontLev]
            calc (frontLev a b : ℚ) ≤ ((max a.length b.length : Nat) : ℚ) := by
                  exact_mod_cast h
              _ = max (a.length : ℚ) (b.length : ℚ) := by push_cast; rfl
          have hdiv0 : (0 : ℚ) ≤ (levenshteinDistance a b : ℚ) /
              max (a.length : ℚ) (b.length : ℚ) :=
            div_nonneg (by positivity) (le_of_lt hM)
          have hdiv1 : (levenshteinDistance a b : ℚ) /
              max (a.length : ℚ) (b.length : ℚ) ≤ 1 := by
            rw [div_le_one hM]
            exact hd
          refine ⟨by rw [levenshteinDistance_eq_frontLev], ?_, ?_⟩
          · linarith
          · linarith

/-! ## Theorems: normalization pipeline -/

theorem collapseRuns_cons_neg (p : Char → Bool) {c : Char} (cs : Str)
    (hc : p c = false) :
    collapseRuns p (c :: cs) = c :: collapseRuns p cs := by
  cases cs with
  | nil => simp [collapseRuns, hc]
  | cons d cs => simp [collapseRuns, hc]

theorem collapseRuns_cons_pos (p : Char → Bool) :
    ∀ (cs : Str) (c : Char), p c = true →
      collapseRuns p (c :: cs) = ' ' :: collapseRuns p (cs.dropWhile p) := by
  intro cs
  induction cs with
  | nil =>
    intro c hc
    simp [collapseRuns, hc]
  | cons d cs ih =>
    intro c hc
    by_cases hd : p d = true
    · rw [List.dropWhile_cons_of_pos hd]
      have h1 : collapseRuns p (c :: d :: cs) = collapseRuns p (d :: cs) := by
        simp [collapseRuns, hc, hd]
      rw [h1, ih d hd]
    · have hd' : p d = false := by simpa using hd
      rw [List.dropWhile_cons_of_neg (by simp [hd'])]
      simp [collapseRuns, hc, hd']

theorem wordsBy_cons_pos (p : Char → Bool) {c : Char} (cs : Str)
    (hc : p c = true) :
    wordsBy p (c :: cs) = wordsBy p cs := by
  cases cs with
  | nil => simp [wordsBy, hc]
  | cons d cs => simp [wordsBy, hc]

theorem wordsBy_cons_neg (p : Char → Bool) :
    ∀ (cs : Str) (c : Char), p c = false →
      wordsBy p (c :: cs) =
        (c :: cs.takeWhile (fun d => ! p d)) :: wordsBy p (cs.dropWhile (fun d => ! p d)) := by
  intro cs
  induction cs with
  | nil =>
    intro c hc
    simp [wordsBy, hc]
  | cons d cs ih =>
    intro c hc
    by_cases hd : p d = true
    · rw [List.takeWhile_cons_of_neg (by simp [hd]), List.dropWhile_cons_of_neg (by simp [hd])]
      simp [wordsBy, hc, hd]
    · have hd' : p d = false := by simpa using hd
      rw [List.takeWhile_cons_of_pos (by simp [hd']), List.dropWhile_cons_of_pos (by simp [hd'])]
      have h1 : wordsBy p (c :: d :: cs) =
          match wordsBy p (d :: cs) with
          | [] => [[c]]
          | w :: ws => (c :: w) :: ws := by
        simp [wordsBy, hc, hd']
      rw [h1, ih d hd']

theorem collapseWs_cons_space {c : Char} (cs : Str) (hc : jsSpace c = true) :
    collapseWs (c :: cs) = ' ' :: collapseWs (cs.dropWhile jsSpace) :=
  collapseRuns_cons_pos jsSpace cs c hc

theorem collapseWs_cons_nonspace {c : Char} (cs : Str) (hc : jsSpace c = false) :
    collapseWs (c :: cs) = c :: collapseWs cs :=
  collapseRuns_cons_neg jsSpace cs hc

theorem collapseWs_nonspace_front (w r : Str)
    (hw : ∀ d ∈ w, jsSpace d = false) :
    collapseWs (w ++ r) = w ++ collapseWs r := by
  induction w with
  | nil => simp
  | cons d w ih =>
    rw [List.cons_append, collapseWs_cons_nonspace _ (hw d (by simp)),
      ih (fun e he => hw e (by simp [he])), List.cons_append]

theorem trimR_all_nonspace (l : Str) (hl : ∀ d ∈ l, jsSpace d = false) :
    trimR l = l := by
  induction l with
  | nil => rfl
  | cons c cs ih =>
    rw [trimR]
    simp [hl c (by simp), ih (fun e he => hl e (by simp [he]))]

theorem trimR_cons_nonspace_ne_nil {c : Char} (l : Str) (hc : jsSpace c = false) :
    trimR (c :: l) ≠ [] := by
  rw [trimR]
  simp [hc]

theorem trimR_append_single_space {d : Char} (l : Str) (hd : jsSpace d = true) :
    trimR (l ++ [d]) = trimR l := by
  induction l with
  | nil => simp [trimR, hd]
  | cons c cs ih =>
    rw [List.cons_append, trimR, ih, trimR]

theorem trimR_append_of_ne_nil (l l2 : Str) (h : trimR l2 ≠ []) :
    trimR (l ++ l2) = l ++ trimR l2 := by
  induction l with
  | nil => simp
  | cons c cs ih =>
    rw [List.cons_append, trimR, ih]
    have hne : ¬(cs ++ trimR l2 = []) := by
      simp only [List.append_eq_nil, not_and]
      intro _
      exact h
    simp [trimR, hne]

theorem wordsOf_cons_space {c : Char} (cs : Str) (hc : jsSpace c = true) :
    wordsOf (c :: cs) = wordsOf cs :=
  wordsBy_cons_pos jsSpace cs hc

theorem wordsOf_dropWhile (l : Str) :
    wordsOf (l.dropWhile jsSpace) = wordsOf l := by
  induction l with
  | nil => rfl
  | cons c cs ih =>
    by_cases hc : jsSpace c = true
    · rw [List.dropWhile_cons_of_pos hc, ih, wordsOf_cons_space cs hc]
    · rw [List.dropWhile_cons_of_neg (by simp [hc])]

theorem wordsOf_cons_nonspace {c : Char} (cs : Str) (hc : jsSpace c = false) :
    wordsOf (c :: cs) =
      (c :: cs.takeWhile (fun d => ! jsSpace d)) ::
        wordsOf (cs.dropWhile (fun d => ! jsSpace d)) :=
  wordsBy_cons_neg jsSpace cs c hc

theorem intercalate_cons_of_ne_nil (a : Str) (l : List Str) (h : l ≠ []) :
    List.intercalate [' '] (a :: l) = a ++ ' ' :: List.intercalate [' '] l := by
  cases l with
  | nil => exact absurd rfl h
  | cons b t =>
    simp [List.intercalate, List.intersperse]

/-- Collapsing whitespace runs and then trimming produces exactly the
whitespace-separated words joined by single spaces. -/
theorem trimJS_collapseWs_eq_words (l : Str) :
    trimJS (collapseWs l) = List.intercalate [' '] (wordsOf l) := by
  have main : ∀ n (l : Str), l.length ≤ n →
      trimJS (collapseWs l) = List.intercalate [' '] (wordsOf l) := by
    intro n
    induction n with
    | zero =>
      intro l hlen
      have hl : l = [] := by cases l <;> simp at hlen ⊢
      subst hl
      rfl
    | succ n ihn =>
      intro l hlen
      cases l with
      | nil => rfl
      | cons c cs =>
        simp only [List.length_cons] at hlen
        by_cases hc : jsSpace c = true
        · rw [collapseWs_cons_space cs hc, wordsOf_cons_space cs hc]
          have e1 : trimJS (' ' :: collapseWs (cs.dropWhile jsSpace)) =
              trimJS (collapseWs (cs.dropWhile jsSpace)) := by
            unfold trimJS
            rw [List.dropWhile_cons_of_pos (show jsSpace ' ' = true by decide)]
          have hlen2 : (cs.dropWhile jsSpace).length ≤ n := by
            have := (List.dropWhile_sublist jsSpace (l := cs)).length_le
            omega
          rw [e1, ihn (cs.dropWhile jsSpace) hlen2, wordsOf_dropWhile]
        · have hc2 : jsSpace c = false := by simpa using hc
          rw [wordsOf_cons_nonspace cs hc2]
          have hw : ∀ d ∈ cs.takeWhile (fun d => ! jsSpace d), jsSpace d = false := by
            intro d hd
            simpa using List.mem_takeWhile_imp hd
          have hcol : collapseWs (c :: cs) =
              c :: (cs.takeWhile (fun d => ! jsSpace d) ++
                collapseWs (cs.dropWhile (fun d => ! jsSpace d))) := by
            rw [collapseWs_cons_nonspace _ hc2]
            conv_lhs =>
              rw [show cs = cs.takeWhile (fun d => ! jsSpace d) ++
                cs.dropWhile (fun d => ! jsSpace d) from
                (List.takeWhile_append_dropWhile (fun d => ! jsSpace d) cs).symm]
            rw [collapseWs_nonspace_front _ _ hw]
          rw [hcol]
          have e2 : ∀ X : Str, trimJS (c :: X) = trimR (c :: X) := by
            intro X
            unfold trimJS
            rw [List.dropWhile_cons_of_neg (by simp [hc2])]
          rw [e2]
          have hrlen := (List.dropWhile_sublist (fun d => ! jsSpace d) (l := cs)).length_le
          cases hrc : cs.dropWhile (fun d => ! jsSpace d) with
          | nil =>
            show trimR (c :: (cs.takeWhile (fun d => ! jsSpace d) ++ collapseWs [])) =
              List.intercalate [' ']
                ((c :: cs.takeWhile (fun d => ! jsSpace d)) :: wordsOf [])
            have hcw : collapseWs ([] : Str) = [] := rfl
            rw [hcw, List.append_nil]
            rw [trimR_all_nonspace _ (by
              intro d hd
              rcases List.mem_cons.mp hd with h1 | h1
              · subst h1; exact hc2
              · exact hw d h1)]
            show c :: cs.takeWhile (fun d => ! jsSpace d) =
              List.intercalate [' '] [c :: cs.takeWhile (fun d => ! jsSpace d)]
            simp [List.intercalate, List.intersperse]
          | cons s r2 =>
            have hs : jsSpace s = true := by
              have hh := List.head?_dropWhile_not (fun d => ! jsSpace d) cs
              rw [hrc] at hh
              simpa using hh
            have hr2len : r2.length ≤ n := by
              rw [hrc] at hrlen
              simp at hrlen
              omega
            rw [collapseWs_cons_space r2 hs, wordsOf_cons_space r2 hs,
              ← wordsOf_dropWhile r2]
            have hmlen : (r2.dropWhile jsSpace).length ≤ n := by
              have := (List.dropWhile_sublist jsSpace (l := r2)).length_le
              omega
            cases hm : r2.dropWhile jsSpace with
            | nil =>
              have hcw : collapseWs ([] : Str) = [] := rfl
              rw [hcw]
              show trimR (c :: (cs.takeWhile (fun d => ! jsSpace d) ++ [' '])) =
                List.intercalate [' ']
                  ((c :: cs.takeWhile (fun d => ! jsSpace d)) :: wordsOf [])
              have hassoc : c :: (cs.takeWhile (fun d => ! jsSpace d) ++ [' ']) =
                  (c :: cs.takeWhile (fun d => ! jsSpace d)) ++ [' '] := by
                simp
              rw [hassoc, trimR_append_single_space _ (by decide)]
              rw [trimR_all_nonspace _ (by
                intro d hd
                rcases List.mem_cons.mp hd with h1 | h1
                · subst h1; exact hc2
                · exact hw d h1)]
              show c :: cs.takeWhile (fun d => ! jsSpace d) =
                List.intercalate [' '] [c :: cs.takeWhile (fun d => ! jsSpace d)]
              simp [List.intercalate, List.intersperse]
            | cons m0 m2 =>
              have hm0 : jsSpace m0 = false := by
                have hh := List.head?_dropWhile_not jsSpace r2
                rw [hm] at hh
                simpa using hh
              rw [collapseWs_cons_nonspace _ hm0]
              have ihm := ihn (r2.dropWhile jsSpace) hmlen
              rw [hm] at ihm
              have ihm2 : trimR (m0 :: collapseWs m2) =
                  List.intercalate [' '] (wordsOf (m0 :: m2)) := by
                have e3 : trimJS (collapseWs (m0 :: m2)) =
                    trimR (m0 :: collapseWs m2) := by
                  rw [collapseWs_cons_nonspace _ hm0]
                  unfold trimJS
                  rw [List.dropWhile_cons_of_neg (by simp [hm0])]
                rw [← e3, ihm]
              have hassoc : c :: (cs.takeWhile (fun d => ! jsSpace d) ++
                  (' ' :: (m0 :: collapseWs m2))) =
                  ((c :: cs.takeWhile (fun d => ! jsSpace d)) ++ [' ']) ++
                    (m0 :: collapseWs m2) := by
                simp
              rw [hassoc,
                trimR_append_of_ne_nil _ _ (trimR_cons_nonspace_ne_nil _ hm0),
                ihm2]
              have hwm : wordsOf (m0 :: m2) ≠ [] := by
                rw [wordsOf_cons_nonspace m2 hm0]
                simp
              rw [intercalate_cons_of_ne_nil _ _ hwm]
              simp
  exact main l.length l le_rfl

/-- The character class kept by the source's `/[^\w\s]/` replacement,
rewritten as ASCII letters, digits, underscore, or whitespace. -/
theorem keepClass_eq (c : Char) :
    (jsWord c || jsSpace c) = (c.isAlpha || c.isDigit || c == '_' || jsSpace c) := by
  rw [Bool.eq_iff_iff]
  simp only [jsWord, Char.isAlpha, Char.isUpper, Char.isLower, Char.isDigit,
    Bool.or_eq_true, Bool.and_eq_true, decide_eq_true_eq, ge_iff_le,
    Char.le_def]
  constructor
  · intro h
    tauto
  · intro h
    tauto

/-- `normalizeString` agrees everywhere with the amended specification
(lowercase; keep ASCII letters, digits, underscore, whitespace; join the
whitespace-separated words with single spaces). -/
theorem normalizeString_eq_amendedSpec (s : Str) :
    normalizeString s = normalizeAmendedSpec s := by
  unfold normalizeString normalizeAmendedSpec
  by_cases hs : s = []
  · subst hs
    rfl
  · rw [if_neg hs, List.filter_congr (fun c _ => keepClass_eq c)]
    exact trimJS_collapseWs_eq_words _

/-! ## Theorems: stable sort and the fuzzy matcher -/

/-- The head of the stable descending sort is the first element of the
input attaining the maximal key. -/
theorem sortByDesc_head {α : Type} (key : α → ℚ) :
    ∀ (l : List α), l ≠ [] →
      ∃ h t, sortByDesc key l = h :: t ∧ h ∈ l ∧
        (∀ u ∈ l, key u ≤ key h) ∧
        l.find? (fun u => key u == key h) = some h := by
  intro l
  induction l with
  | nil => intro h; exact absurd rfl h
  | cons x xs ih =>
    intro _
    cases xs with
    | nil =>
      refine ⟨x, [], rfl, by simp, by simp, ?_⟩
      rw [List.find?_cons_of_pos _ (by simp)]
    | cons y ys =>
      obtain ⟨h, t, hsort, hmem, hmax, hfind⟩ := ih (by simp)
      show ∃ h2 t2, insertDesc key x (sortByDesc key (y :: ys)) = h2 :: t2 ∧ _
      rw [hsort]
      by_cases hxh : key x ≥ key h
      · refine ⟨x, h :: t, by simp [insertDesc, hxh], by simp, ?_, ?_⟩
        · intro u hu
          rcases List.mem_cons.mp hu with h1 | h1
          · subst h1; exact le_refl _
          · exact le_trans (hmax u h1) hxh
        · rw [List.find?_cons_of_pos _ (by simp)]
      · have hlt : key x < key h := lt_of_not_ge hxh
        refine ⟨h, insertDesc key x t, by simp [insertDesc, hxh], by simp [hmem], ?_, ?_⟩
        · intro u hu
          rcases List.mem_cons.mp hu with h1 | h1
          · subst h1; exact le_of_lt hlt
          · exact hmax u h1
        · rw [List.find?_cons_of_neg _ (by simp [ne_of_lt hlt]), hfind]

/-- Characterization of `findBestAudioMatch`: no match exactly when every
candidate scores below 0.7; a returned match is a candidate scoring at
least 0.7 that is maximal among all candidates, and is the first-seen
candidate attaining its score. -/
theorem findBestAudioMatch_spec (tracks : List VKTrack) (ta tt : Str) :
    (findBestAudioMatch tracks ta tt = none ↔
      ∀ tr ∈ tracks, trackScore ta tt tr < 7 / 10) ∧
    (∀ tr, findBestAudioMatch tracks ta tt = some tr →
      tr ∈ tracks ∧ 7 / 10 ≤ trackScore ta tt tr ∧
      (∀ u ∈ tracks, trackScore ta tt u ≤ trackScore ta tt tr) ∧
      tracks.find? (fun u => trackScore ta tt u == trackScore ta tt tr) = some tr) := by
  by_cases htr : tracks = []
  · subst htr
    constructor
    · simp [findBestAudioMatch]
    · intro tr h
      simp [findBestAudioMatch] at h
  · obtain ⟨p, t, hsort, hmem, hmax, hfind⟩ :=
      sortByDesc_head (fun p : VKTrack × ℚ => p.2)
        (tracks.map (fun tr => (tr, trackScore ta tt tr))) (by simp [htr])
    have hres : findBestAudioMatch tracks ta tt =
        (if p.2 ≥ 7 / 10 then some p.1 else none) := by
      rw [findBestAudioMatch, if_neg htr, hsort]
    obtain ⟨tr0, htr0mem, htr0eq⟩ := List.mem_map.mp hmem
    have hp2 : p.2 = trackScore ta tt p.1 := by
      rw [← htr0eq]
    have hp1mem : p.1 ∈ tracks := by
      rw [← htr0eq]
      exact htr0mem
    have hmax2 : ∀ u ∈ tracks, trackScore ta tt u ≤ trackScore ta tt p.1 := by
      intro u hu
      have := hmax (u, trackScore ta tt u) (List.mem_map.mpr ⟨u, hu, rfl⟩)
      rw [hp2] at this
      exact this
    have hfind2 : tracks.find?
        (fun u => trackScore ta tt u == trackScore ta tt p.1) = some p.1 := by
      rw [List.find?_map] at hfind
      have : (fun q : VKTrack × ℚ => q.2 == p.2) ∘
          (fun tr => (tr, trackScore ta tt tr)) =
          fun u => trackScore ta tt u == trackScore ta tt p.1 := by
        funext u
        simp [hp2]
      rw [this] at hfind
      rcases hmap : tracks.find?
          (fun u => trackScore ta tt u == trackScore ta tt p.1) with _ | u0
      · rw [hmap] at hfind
        simp at hfind
      · rw [hmap] at hfind
        have h5 : (u0, trackScore ta tt u0) = p := by
          simpa using hfind
        have h6 : u0 = p.1 := congrArg Prod.fst h5
        exact congrArg some h6
    constructor
    · constructor
      · intro hnone tr htrmem
        rw [hres] at hnone
        by_cases h7 : p.2 ≥ 7 / 10
        · rw [if_pos h7] at hnone
          exact absurd hnone (by simp)
        · have : trackScore ta tt tr ≤ trackScore ta tt p.1 := hmax2 tr htrmem
          rw [hp2] at h7
          have h7' := lt_of_not_ge h7
          exact lt_of_le_of_lt this h7'
      · intro hall
        rw [hres]
        have : p.2 < 7 / 10 := by
          rw [hp2]
          exact hall p.1 hp1mem
        rw [if_neg (not_le.mpr this)]
    · intro tr hsome
      rw [hres] at hsome
      by_cases h7 : p.2 ≥ 7 / 10
      · rw [if_pos h7] at hsome
        have htrp : tr = p.1 := (Option.some.inj hsome).symm
        subst htrp
        rw [hp2] at h7
        exact ⟨hp1mem, h7, hmax2, hfind2⟩
      · rw [if_neg h7] at hsome
        exact absurd hsome (by simp)

/-! ## Theorems: dispatch order and captions -/

theorem withCaptions_empty_comp (c : Str) :
    ∀ (l : List UnitSkel) (b : Bool), withCaptions [] b l = withCaptions c false l := by
  intro l
  induction l with
  | nil => intro b; rfl
  | cons x rest ih =>
    intro b
    cases b <;> simp [withCaptions, ih false]

theorem withCaptions_false_append (c : Str) (s t : List UnitSkel) :
    withCaptions c false (s ++ t) = withCaptions c false s ++ withCaptions c false t := by
  induction s with
  | nil => simp [withCaptions]
  | cons x s ih =>
    show renderSkel [] x :: withCaptions c false (s ++ t) = _
    rw [ih]
    rfl

theorem withCaptions_true_append (c : Str) (s t : List UnitSkel) :
    withCaptions c true (s ++ t) =
      withCaptions c true s ++ withCaptions (if s = [] then c else []) true t := by
  cases s with
  | nil => simp [withCaptions]
  | cons x s =>
    show renderSkel c x :: withCaptions c false (s ++ t) =
      (renderSkel c x :: withCaptions c false s) ++ withCaptions [] true t
    rw [withCaptions_false_append, withCaptions_empty_comp c t true]
    simp

theorem runPhotos_ok (oracle : SendOracle) (h : ∀ i, oracle i = none)
    (photos : List Str) (text : Str) :
    runPhotos oracle photos text =
      .ok (withCaptions text true (photoSkels photos))
        (if photos = [] then text else []) (photoSkels photos).length := by
  match photos with
  | [] => rfl
  | [p] =>
    simp [runPhotos, h 0, photoSkels, withCaptions, renderSkel]
  | p :: q :: ps =>
    simp [runPhotos, h 0, photoSkels, withCaptions, renderSkel]

theorem runAnimations_ok (oracle : SendOracle) (h : ∀ i, oracle i = none) :
    ∀ (gifs : List Str) (text : Str) (tr : List TgCall) (idx : Nat),
      runAnimations oracle gifs text tr idx =
        .ok (tr ++ withCaptions text true (gifs.map .animation))
          (if gifs = [] then text else []) (idx + gifs.length) := by
  intro gifs
  induction gifs with
  | nil => intro text tr idx; simp [runAnimations, withCaptions]
  | cons g gs ih =>
    intro text tr idx
    simp only [runAnimations, h idx]
    rw [ih [] (tr ++ [TgCall.sendAnimation g text]) (idx + 1)]
    have e1 : withCaptions text true ((g :: gs).map .animation) =
        .sendAnimation g text :: withCaptions text false (gs.map .animation) := rfl
    rw [e1, ← withCaptions_empty_comp text (gs.map .animation) true]
    cases gs <;> simp [List.append_assoc] <;> omega

theorem runAudios_ok (oracle : SendOracle) (h : ∀ i, oracle i = none) :
    ∀ (as : List AudioPayload) (text : Str) (tr : List TgCall) (idx : Nat),
      (∀ a ∈ as, a.url ≠ []) →
      runAudios oracle as text tr idx =
        .ok (tr ++ withCaptions text true (as.map .audioU))
          (if as = [] then text else []) (idx + as.length) := by
  intro as
  induction as with
  | nil => intro text tr idx _; simp [runAudios, withCaptions]
  | cons a as ih =>
    intro text tr idx hurl
    have ha := hurl a (by simp)
    simp only [runAudios, h idx, if_pos ha]
    rw [ih [] (tr ++ [TgCall.sendAudio a.url text a.title a.artist]) (idx + 1)
      (fun b hb => hurl b (by simp [hb]))]
    have e1 : withCaptions text true ((a :: as).map .audioU) =
        .sendAudio a.url text a.title a.artist ::
          withCaptions text false (as.map .audioU) := rfl
    rw [e1, ← withCaptions_empty_comp text (as.map .audioU) true]
    cases as <;> simp [List.append_assoc] <;> omega

theorem runDocs_ok (oracle : SendOracle) (h : ∀ i, oracle i = none) :
    ∀ (ds : List DocRef) (text : Str) (tr : List TgCall) (idx : Nat),
      runDocs oracle ds text tr idx =
        .ok (tr ++ withCaptions text true (ds.map .docU))
          (if ds = [] then text else []) (idx + ds.length) := by
  intro ds
  induction ds with
  | nil => intro text tr idx; simp [runDocs, withCaptions]
  | cons d ds ih =>
    intro text tr idx
    simp only [runDocs, h idx]
    rw [ih [] (tr ++ [TgCall.sendDocument d.url
      (if text ≠ [] then text else "Документ: ".data ++ d.title)]) (idx + 1)]
    have e1 : withCaptions text true ((d :: ds).map .docU) =
        .sendDocument d.url (if text ≠ [] then text else "Документ: ".data ++ d.title) ::
          withCaptions text false (ds.map .docU) := rfl
    rw [e1, ← withCaptions_empty_comp text (ds.map .docU) true]
    cases ds <;> simp [List.append_assoc] <;> omega

theorem photoSkels_eq_nil_iff (photos : List Str) :
    photoSkels photos = [] ↔ photos = [] := by
  match photos with
  | [] => simp [photoSkels]
  | [p] => simp [photoSkels]
  | p :: q :: ps => simp [photoSkels]

/-- The expected unit list, decomposed the way the four sequential
blocks of `sendContentToTelegram` produce it. -/
theorem expectedUnits_decomp (c : Str) (photos gifs : List Str)
    (audios : List AudioPayload) (docs : List DocRef) :
    expectedUnits c photos gifs audios docs =
      withCaptions c true (photoSkels photos) ++
      (withCaptions (if photos = [] then c else []) true (gifs.map .animation) ++
      (withCaptions (if gifs = [] then (if photos = [] then c else []) else []) true
        ((audios.filter (fun a => a.url ≠ [])).map .audioU) ++
      withCaptions
        (if audios.filter (fun a => a.url ≠ []) = []
          then (if gifs = [] then (if photos = [] then c else []) else [])
          else [])
        true (docs.map .docU))) := by
  rw [expectedUnits, withCaptions_true_append, withCaptions_true_append,
    withCaptions_true_append]
  by_cases h1 : photos = [] <;> by_cases h2 : gifs = [] <;>
    by_cases h3 : audios.filter (fun a => a.url ≠ []) = [] <;>
    simp [h1, h2, h3, photoSkels_eq_nil_iff, List.append_assoc]

theorem sendCore_ok (oracle : SendOracle) (h : ∀ i, oracle i = none)
    (text1 : Str) (photos gifs : List Str) (audios : List AudioPayload)
    (docs : List DocRef) :
    sendCore oracle text1 photos gifs audios docs =
      .ok (expectedUnits text1 photos gifs audios docs)
        (if docs = [] then
          (if audios.filter (fun a => a.url ≠ []) = [] then
            (if gifs = [] then (if photos = [] then text1 else []) else [])
          else [])
        else [])
        ((photoSkels photos).length + gifs.length +
          (audios.filter (fun a => a.url ≠ [])).length + docs.length) := by
  have hU : ∀ a ∈ audios.filter (fun a => a.url ≠ []), a.url ≠ [] := by
    intro a ha
    have h2 := List.mem_filter.mp ha
    simpa using h2.2
  rw [sendCore, runPhotos_ok oracle h photos text1]
  dsimp only
  rw [runAnimations_ok oracle h]
  dsimp only
  rw [runAudios_ok oracle h _ _ _ _ hU]
  dsimp only
  rw [runDocs_ok oracle h]
  rw [expectedUnits_decomp]
  simp [List.append_assoc]

/-- With every send succeeding, the media-case dispatch emits exactly
the expected unit sequence. -/
theorem sendContent_allOk (oracle : SendOracle) (h : ∀ i, oracle i = none)
    (text : Str) (photos gifs : List Str) (audios : List AudioPayload)
    (docs : List DocRef)
    (hm : ¬(photos = [] ∧ gifs = [] ∧
      audios.filter (fun a => a.url ≠ []) = [] ∧ docs = [])) :
    sendContentToTelegram oracle text photos gifs audios docs =
      expectedUnits (text ++ audioLinesText audios) photos gifs audios docs := by
  have hcore :=
    sendCore_ok oracle h (text ++ audioLinesText audios) photos gifs audios docs
  rw [sendContentToTelegram]
  simp only [if_neg hm]
  rw [hcore]

/-! ## Theorems: failure behaviour of the dispatch (claim C8) -/

theorem runPhotos_consult (oracle : SendOracle) (photos : List Str) (text : Str) :
    (match runPhotos oracle photos text with
     | .ok tr _ idx => tr.length = idx ∧ ∀ i < idx, oracle i = none
     | .failed tr _ idx m => tr.length = idx ∧ 1 ≤ idx ∧
         oracle (idx - 1) = some m ∧ ∀ i < idx - 1, oracle i = none) := by
  match photos with
  | [] => exact ⟨rfl, by omega⟩
  | [p] =>
    rw [runPhotos]
    cases ho : oracle 0 with
    | some m =>
      exact ⟨rfl, by omega, ho, by omega⟩
    | none =>
      refine ⟨rfl, ?_⟩
      intro i hi
      have : i = 0 := by omega
      subst this
      exact ho
  | p :: q :: ps =>
    cases ho : oracle 0 with
    | some m => simp [runPhotos, ho]
    | none => simp [runPhotos, ho, Nat.lt_one_iff]

theorem runAnimations_consult (oracle : SendOracle) :
    ∀ (gifs : List Str) (text : Str) (tr : List TgCall) (idx : Nat),
      tr.length = idx → (∀ i < idx, oracle i = none) →
      (match runAnimations oracle gifs text tr idx with
       | .ok tr2 _ idx2 => tr2.length = idx2 ∧ ∀ i < idx2, oracle i = none
       | .failed tr2 _ idx2 m => tr2.length = idx2 ∧ 1 ≤ idx2 ∧
           oracle (idx2 - 1) = some m ∧ ∀ i < idx2 - 1, oracle i = none) := by
  intro gifs
  induction gifs with
  | nil =>
    intro text tr idx hlen hpre
    exact ⟨hlen, hpre⟩
  | cons g gs ih =>
    intro text tr idx hlen hpre
    rw [runAnimations]
    cases ho : oracle idx with
    | some m =>
      refine ⟨by simp [hlen], by omega, by simpa using ho, by simpa using hpre⟩
    | none =>
      exact ih [] (tr ++ [TgCall.sendAnimation g text]) (idx + 1)
        (by simp [hlen])
        (fun i hi => by
          rcases Nat.lt_succ_iff_lt_or_eq.mp hi with h1 | h1
          · exact hpre i h1
          · subst h1; exact ho)

theorem runAudios_consult (oracle : SendOracle) :
    ∀ (as : List AudioPayload) (text : Str) (tr : List TgCall) (idx : Nat),
      tr.length = idx → (∀ i < idx, oracle i = none) →
      (match runAudios oracle as text tr idx with
       | .ok tr2 _ idx2 => tr2.length = idx2 ∧ ∀ i < idx2, oracle i = none
       | .failed tr2 _ idx2 m => tr2.length = idx2 ∧ 1 ≤ idx2 ∧
           oracle (idx2 - 1) = some m ∧ ∀ i < idx2 - 1, oracle i = none) := by
  intro as
  induction as with
  | nil =>
    intro text tr idx hlen hpre
    exact ⟨hlen, hpre⟩
  | cons a as ih =>
    intro text tr idx hlen hpre
    rw [runAudios]
    by_cases hu : a.url ≠ []
    · rw [if_pos hu]
      cases ho : oracle idx with
      | some m =>
        refine ⟨by simp [hlen], by omega, by simpa using ho, by simpa using hpre⟩
      | none =>
        exact ih [] (tr ++ [TgCall.sendAudio a.url text a.title a.artist]) (idx + 1)
          (by simp [hlen])
          (fun i hi => by
            rcases Nat.lt_succ_iff_lt_or_eq.mp hi with h1 | h1
            · exact hpre i h1
            · subst h1; exact ho)
    · rw [if_neg hu]
      exact ih text tr idx hlen hpre

theorem runDocs_consult (oracle : SendOracle) :
    ∀ (ds : List DocRef) (text : Str) (tr : List TgCall) (idx : Nat),
      tr.length = idx → (∀ i < idx, oracle i = none) →
      (match runDocs oracle ds text tr idx with
       | .ok tr2 _ idx2 => tr2.length = idx2 ∧ ∀ i < idx2, oracle i = none
       | .failed tr2 _ idx2 m => tr2.length = idx2 ∧ 1 ≤ idx2 ∧
           oracle (idx2 - 1) = some m ∧ ∀ i < idx2 - 1, oracle i = none) := by
  intro ds
  induction ds with
  | nil =>
    intro text tr idx hlen hpre
    exact ⟨hlen, hpre⟩
  | cons d ds ih =>
    intro text tr idx hlen hpre
    rw [runDocs]
    cases ho : oracle idx with
    | some m =>
      refine ⟨by simp [hlen], by omega, by simpa using ho, by simpa using hpre⟩
    | none =>
      exact ih []
        (tr ++ [TgCall.sendDocument d.url
          (if text ≠ [] then text else "Документ: ".data ++ d.title)]) (idx + 1)
        (by simp [hlen])
        (fun i hi => by
          rcases Nat.lt_succ_iff_lt_or_eq.mp hi with h1 | h1
          · exact hpre i h1
          · subst h1; exact ho)

/-- The dispatch body attempts calls strictly in order: on success every
consulted index succeeded; on failure the failed call is the last
attempted one and every earlier call succeeded. -/
theorem sendCore_consult (oracle : SendOracle) (text1 : Str)
    (photos gifs : List Str) (audios : List AudioPayload) (docs : List DocRef) :
    (match sendCore oracle text1 photos gifs audios docs with
     | .ok tr _ idx => tr.length = idx ∧ ∀ i < idx, oracle i = none
     | .failed tr _ idx m => tr.length = idx ∧ 1 ≤ idx ∧
         oracle (idx - 1) = some m ∧ ∀ i < idx - 1, oracle i = none) := by
  rw [sendCore]
  have h0 := runPhotos_consult oracle photos text1
  cases hp : runPhotos oracle photos text1 with
  | failed tr t idx m =>
    rw [hp] at h0
    dsimp only at h0 ⊢
    exact h0
  | ok tr t idx =>
    rw [hp] at h0
    dsimp only at h0 ⊢
    have h1 := runAnimations_consult oracle gifs t tr idx h0.1 h0.2
    cases ha : runAnimations oracle gifs t tr idx with
    | failed tr2 t2 idx2 m =>
      rw [ha] at h1
      dsimp only at h1 ⊢
      exact h1
    | ok tr2 t2 idx2 =>
      rw [ha] at h1
      dsimp only at h1 ⊢
      have h2 := runAudios_consult oracle (audios.filter (fun a => a.url ≠ []))
        t2 tr2 idx2 h1.1 h1.2
      cases hau : runAudios oracle (audios.filter (fun a => a.url ≠ [])) t2 tr2 idx2 with
      | failed tr3 t3 idx3 m =>
        rw [hau] at h2
        dsimp only at h2 ⊢
        exact h2
      | ok tr3 t3 idx3 =>
        rw [hau] at h2
        dsimp only at h2 ⊢
        exact runDocs_consult oracle docs t3 tr3 idx3 h2.1 h2.2

/-! ## Theorems: attachment extraction -/

theorem getGifAttachments_eq (p : VKPost) :
    getGifAttachments p = ((docPayloads p).filter gifDocTest).map (fun d => d.url) := by
  rw [getGifAttachments, docPayloads]
  cases p.attachments with
  | none => rfl
  | some as =>
    dsimp only
    induction as with
    | nil => rfl
    | cons a as ih =>
      cases a with
      | doc d =>
        by_cases hd : gifDocTest d = true
        · simp [hd, ih]
        · have hd2 : gifDocTest d = false := by simpa using hd
          simp [hd2, ih]
      | photo q => simpa using ih
      | audio q => simpa using ih
      | video q => simpa using ih
      | link q => simpa using ih
      | other => simpa using ih

theorem getDocumentAttachments_eq (p : VKPost) :
    getDocumentAttachments p =
      ((docPayloads p).filter (fun d => ! gifDocTest d)).map
        (fun d => (⟨d.url, d.title, d.ext⟩ : DocRef)) := by
  rw [getDocumentAttachments, docPayloads]
  cases p.attachments with
  | none => rfl
  | some as =>
    dsimp only
    rw [List.filter_congr (l := as)
      (fun a _ => show _ = (fun a : Attachment =>
        match a with
        | .doc d => ! gifDocTest d
        | _ => false) a from by cases a <;> rfl)]
    induction as with
    | nil => rfl
    | cons a as ih =>
      cases a with
      | doc d =>
        by_cases hd : gifDocTest d = true
        · simp [hd, ih]
        · have hd2 : gifDocTest d = false := by simpa using hd
          simp [hd2, ih]
      | photo q => simpa using ih
      | audio q => simpa using ih
      | video q => simpa using ih
      | link q => simpa using ih
      | other => simpa using ih

theorem filter_not_partition {α : Type} (p : α → Bool) (l : List α) :
    (l.filter p).length + (l.filter (fun x => ! p x)).length = l.length := by
  induction l with
  | nil => rfl
  | cons x l ih =>
    by_cases hx : p x = true
    · simp [List.filter_cons, hx, ih]
      omega
    · have hx2 : p x = false := by simpa using hx
      simp [List.filter_cons, hx2, ih]
      omega

theorem gifDocTest_of_ext (d : DocPayload) (h : d.ext = "gif".data) :
    gifDocTest d = true := by
  simp [gifDocTest, h]

theorem getAudioAttachments_eq (p : VKPost) :
    getAudioAttachments p =
      (attachmentList p).filterMap (fun a =>
        match a with
        | .audio au => some (⟨au.url, au.artist, au.title⟩ : AudioPayload)
        | _ => none) := by
  rw [getAudioAttachments, attachmentList]
  cases p.attachments with
  | none => rfl
  | some as =>
    dsimp only
    induction as with
    | nil => rfl
    | cons a as ih =>
      cases a <;> simpa using ih

theorem getLinkAttachments_eq (p : VKPost) :
    getLinkAttachments p =
      (attachmentList p).filterMap (fun a =>
        match a with
        | .link l => some l.url
        | _ => none) := by
  rw [getLinkAttachments, attachmentList]
  cases p.attachments with
  | none => rfl
  | some as =>
    dsimp only
    induction as with
    | nil => rfl
    | cons a as ih =>
      cases a <;> simpa using ih

theorem getGifAttachments_filterMap (p : VKPost) :
    getGifAttachments p =
      (attachmentList p).filterMap (fun a =>
        match a with
        | .doc d => if gifDocTest d then some d.url else none
        | _ => none) := by
  rw [getGifAttachments, attachmentList]
  cases p.attachments with
  | none => rfl
  | some as =>
    dsimp only
    induction as with
    | nil => rfl
    | cons a as ih =>
      cases a with
      | doc d =>
        by_cases hd : gifDocTest d = true
        · simp [hd, ih]
        · have hd2 : gifDocTest d = false := by simpa using hd
          simp [hd2, ih]
      | photo q => simpa using ih
      | audio q => simpa using ih
      | video q => simpa using ih
      | link q => simpa using ih
      | other => simpa using ih

theorem insertDesc_perm {α : Type} (key : α → ℚ) (x : α) (l : List α) :
    (insertDesc key x l).Perm (x :: l) := by
  induction l with
  | nil => simp [insertDesc]
  | cons y ys ih =>
    rw [insertDesc]
    by_cases hxy : key x ≥ key y
    · simp [hxy]
    · rw [if_neg hxy]
      exact (List.Perm.cons y ih).trans (List.Perm.swap x y ys)

theorem sortByDesc_perm {α : Type} (key : α → ℚ) (l : List α) :
    (sortByDesc key l).Perm l := by
  induction l with
  | nil => simp [sortByDesc]
  | cons x xs ih =>
    rw [sortByDesc]
    exact (insertDesc_perm key x _).trans (List.Perm.cons x ih)

theorem sortByDesc_ne_nil {α : Type} (key : α → ℚ) (l : List α) (h : l ≠ []) :
    sortByDesc key l ≠ [] := by
  intro hc
  have := (sortByDesc_perm key l).length_eq
  rw [hc] at this
  cases l with
  | nil => exact h rfl
  | cons x xs => simp at this

theorem extractPhotoUrls_ok :
    ∀ (as : List Attachment),
      (∀ p : PhotoPayload, Attachment.photo p ∈ as → p.sizes ≠ []) →
      extractPhotoUrls as = .ok
        (as.filterMap (fun a =>
          match a with
          | .photo p => ((sortByDesc photoSizeArea p.sizes).head?).map (fun s => s.url)
          | _ => none),
        as.map (fun a =>
          match a with
          | .photo p => .photo ⟨sortByDesc photoSizeArea p.sizes⟩
          | b => b)) := by
  intro as
  induction as with
  | nil => intro _; rfl
  | cons a as ih =>
    intro hwf
    have ihs := ih (fun p hp => hwf p (List.mem_cons_of_mem a hp))
    cases a with
    | photo p =>
      have hp := hwf p (List.mem_cons_self _ _)
      have hsne := sortByDesc_ne_nil photoSizeArea p.sizes hp
      cases hs : sortByDesc photoSizeArea p.sizes with
      | nil => exact absurd hs hsne
      | cons s rest =>
        simp only [extractPhotoUrls, hs, ihs, List.filterMap_cons, List.map_cons,
          Option.map_some]
        rfl
    | doc d =>
      simp only [extractPhotoUrls, ihs, List.filterMap_cons, List.map_cons]
    | audio q =>
      simp only [extractPhotoUrls, ihs, List.filterMap_cons, List.map_cons]
    | video q =>
      simp only [extractPhotoUrls, ihs, List.filterMap_cons, List.map_cons]
    | link q =>
      simp only [extractPhotoUrls, ihs, List.filterMap_cons, List.map_cons]
    | other =>
      simp only [extractPhotoUrls, ihs, List.filterMap_cons, List.map_cons]

/-- On a post whose photos all have at least one rendition, photo
extraction returns the largest-area url per photo, and hands back the
post with every photo's `sizes` array replaced by its sorted (hence
permuted) version — the in-place `sort` mutation. -/
theorem getPhotoAttachments_ok (post : VKPost)
    (hwf : ∀ p : PhotoPayload, Attachment.photo p ∈ attachmentList post → p.sizes ≠ []) :
    getPhotoAttachments post = .ok
      ((attachmentList post).filterMap (fun a =>
        match a with
        | .photo p => ((sortByDesc photoSizeArea p.sizes).head?).map (fun s => s.url)
        | _ => none),
      { post with attachments := post.attachments.map (fun as => as.map (fun a =>
          match a with
          | .photo p => .photo ⟨sortByDesc photoSizeArea p.sizes⟩
          | b => b)) }) := by
  obtain ⟨pid, oid, pdate, ptext, patts, ppin⟩ := post
  cases patts with
  | none => rfl
  | some as =>
    simp only [attachmentList] at hwf
    rw [getPhotoAttachments]
    dsimp only
    rw [extractPhotoUrls_ok as hwf]
    rfl

/-- A post with an empty attachment list yields five empty extractions
(and photo extraction leaves the post unchanged). -/
theorem extractors_empty (post : VKPost) (h : post.attachments = some []) :
    getPhotoAttachments post = .ok ([], post) ∧
    getGifAttachments post = [] ∧
    getAudioAttachments post = [] ∧
    getLinkAttachments post = [] ∧
    getDocumentAttachments post = [] := by
  obtain ⟨pid, oid, pdate, ptext, patts, ppin⟩ := post
  simp only [VKPost.mk.injEq] at h
  subst h
  refine ⟨rfl, rfl, rfl, rfl, rfl⟩

/-! ## Theorems: audio resolution (claim C3) -/

theorem resolveAudios_forall2 (lookup : LookupOracle) :
    ∀ as : List AudioPayload,
      List.Forall₂ (fun a o =>
        (a.url ≠ [] → o = a) ∧
        (a.url = [] → o = a ∨ (o.url ≠ [] ∧ o.artist = a.artist ∧ o.title = a.title)))
        as (resolveAudios lookup as) := by
  intro as
  induction as with
  | nil => exact List.Forall₂.nil
  | cons a as ih =>
    rw [resolveAudios]
    refine List.Forall₂.cons ?_ ih
    by_cases hu : a.url ≠ []
    · rw [if_pos hu]
      exact ⟨fun _ => rfl, fun h => absurd h hu⟩
    · rw [if_neg hu]
      push_neg at hu
      by_cases hat : a.artist ≠ [] ∧ a.title ≠ []
      · rw [if_pos hat]
        cases hlk : lookup a.artist a.title with
        | ok op =>
          cases op with
          | some t =>
            dsimp only
            by_cases htu : t.url ≠ []
            · rw [if_pos htu]
              exact ⟨fun h => absurd hu h, fun _ => Or.inr ⟨htu, rfl, rfl⟩⟩
            · rw [if_neg htu]
              exact ⟨fun _ => rfl, fun _ => Or.inl rfl⟩
          | none =>
            exact ⟨fun _ => rfl, fun _ => Or.inl rfl⟩
        | error e =>
          exact ⟨fun _ => rfl, fun _ => Or.inl rfl⟩
      · rw [if_neg hat]
        exact ⟨fun _ => rfl, fun _ => Or.inl rfl⟩

theorem segment_infix_flatten (f : AudioPayload → Str) :
    ∀ (l : List AudioPayload) (a : AudioPayload), a ∈ l →
      f a <:+: (l.map f).flatten := by
  intro l
  induction l with
  | nil => intro a ha; cases ha
  | cons b l ih =>
    intro a ha
    rcases List.mem_cons.mp ha with h1 | h1
    · subst h1
      exact ⟨[], (l.map f).flatten, by simp⟩
    · obtain ⟨u, v, huv⟩ := ih a h1
      exact ⟨f b ++ u, v, by simp [← huv, List.append_assoc]⟩

theorem isInfix_append_left (l t s : Str) (h : l <:+: t) : l <:+: s ++ t := by
  obtain ⟨u, v, huv⟩ := h
  exact ⟨s ++ u, v, by simp [← huv, List.append_assoc]⟩

/-- Every kept audio ref without a url but with artist and title is
rendered as the `🎵` plain-text line inside the composed caption. -/
theorem audioLine_infix (text : Str) (audios : List AudioPayload)
    (a : AudioPayload) (ha : a ∈ audios) (h1 : a.url = [])
    (h2 : a.artist ≠ []) (h3 : a.title ≠ []) :
    ("\n🎵 ".data ++ a.artist ++ " - ".data ++ a.title) <:+:
      (text ++ audioLinesText audios) := by
  have hmem : a ∈ audios.filter (fun a => a.url = [] && a.artist ≠ [] && a.title ≠ []) :=
    List.mem_filter.mpr ⟨ha, by simp [h1, h2, h3]⟩
  have hne : audios.filter (fun a => a.url = [] && a.artist ≠ [] && a.title ≠ []) ≠ [] :=
    List.ne_nil_of_mem hmem
  have hflat := segment_infix_flatten
    (fun a => "\n🎵 ".data ++ a.artist ++ " - ".data ++ a.title) _ a hmem
  rw [audioLinesText]
  simp only [if_neg hne]
  exact isInfix_append_left _ _ _ (isInfix_append_left _ _ _ hflat)

theorem countP_audio_withCaptions (c : Str) :
    ∀ (skels : List UnitSkel) (b : Bool),
      (withCaptions c b skels).countP isAudioCall =
        skels.countP (fun s =>
          match s with
          | .audioU _ => true
          | _ => false) := by
  intro skels
  induction skels with
  | nil => intro b; rfl
  | cons x rest ih =>
    intro b
    rw [withCaptions, List.countP_cons, List.countP_cons, ih false]
    have : isAudioCall (renderSkel (if b then c else []) x) =
        (match x with
          | .audioU _ => true
          | _ => false) := by
      cases x <;> rfl
    rw [this]

/-- Among the expected outbound units, the audio sends are exactly the
audio refs that carry a url. -/
theorem countP_audio_expectedUnits (c : Str) (photos gifs : List Str)
    (audios : List AudioPayload) (docs : List DocRef) :
    (expectedUnits c photos gifs audios docs).countP isAudioCall =
      (audios.filter (fun a => a.url ≠ [])).length := by
  rw [expectedUnits, countP_audio_withCaptions]
  simp only [List.countP_append, List.countP_map]
  have h1 : (photoSkels photos).countP (fun s =>
      match s with
      | .audioU _ => true
      | _ => false) = 0 := by
    match photos with
    | [] => rfl
    | [p] => rfl
    | p :: q :: ps => rfl
  rw [h1]
  dsimp only [Function.comp_def]
  simp

/-! ## Theorems: processPost and the batch loop -/

theorem processPost_extract_error (lookup : LookupOracle) (send : SendOracle)
    (saveFails : Bool) (st : List PostKey) (post : VKPost)
    (hseen : st.contains (post.owner_id, post.id) = false)
    (hpin : post.is_pinned = false)
    (herr : getPhotoAttachments post = .error ()) :
    processPost lookup send saveFails st post = (st, [], .caughtError) := by
  have hmem : ¬ (st.contains (post.owner_id, post.id) = true) := by
    rw [hseen]; exact Bool.false_ne_true
  rw [processPost]
  rw [if_neg hmem, if_neg (by simp [hpin]), herr]

theorem processPost_marks (lookup : LookupOracle) (send : SendOracle)
    (st : List PostKey) (post : VKPost)
    (hpin : post.is_pinned = false)
    (us : List Str) (post2 : VKPost)
    (hok : getPhotoAttachments post = .ok (us, post2))
    (hseen : st.contains (post.owner_id, post.id) = false) :
    processPost lookup send false st post =
      (st ++ [(post.owner_id, post.id)],
        sendContentToTelegram send
          (post.text ++ "\n\n<a href=\"".data ++ getPostUrl post ++
            "\">Оригинальный пост</a>".data ++
            linksText (getLinkAttachments post2))
          us (getGifAttachments post2) (processAudioAttachments lookup post2)
          (getDocumentAttachments post2),
        .success) := by
  have hmem : ¬ (st.contains (post.owner_id, post.id) = true) := by
    rw [hseen]; exact Bool.false_ne_true
  rw [processPost]
  rw [if_neg hmem, if_neg (by simp [hpin]), hok]
  dsimp only
  rw [markPostAsProcessed]
  dsimp only
  rw [if_neg hmem]
  simp

theorem processPost_savefail_marks (lookup : LookupOracle) (send : SendOracle)
    (st : List PostKey) (post : VKPost)
    (hpin : post.is_pinned = false)
    (us : List Str) (post2 : VKPost)
    (hok : getPhotoAttachments post = .ok (us, post2))
    (hseen : st.contains (post.owner_id, post.id) = false) :
    (processPost lookup send true st post).1 = st ++ [(post.owner_id, post.id)] ∧
    (processPost lookup send true st post).2.2 = .caughtError := by
  have hmem : ¬ (st.contains (post.owner_id, post.id) = true) := by
    rw [hseen]; exact Bool.false_ne_true
  rw [processPost]
  rw [if_neg hmem, if_neg (by simp [hpin]), hok]
  dsimp only
  rw [markPostAsProcessed]
  dsimp only
  rw [if_neg hmem]
  exact ⟨rfl, rfl⟩

theorem processPostsLoop_length (lookup : LookupOracle) (sendFor : Nat → SendOracle)
    (saveFails : Bool) :
    ∀ (ps : List VKPost) (st : List PostKey) (k : Nat),
      (processPostsLoop lookup sendFor saveFails ps st k).2.length = ps.length := by
  intro ps
  induction ps with
  | nil => intro st k; rfl
  | cons p ps ih =>
    intro st k
    rw [processPostsLoop]
    cases h1 : processPost lookup (sendFor k) saveFails st p with
    | mk st2 rest =>
      cases rest with
      | mk tr oc =>
        dsimp only
        cases h2 : processPostsLoop lookup sendFor saveFails ps st2 (k + 1) with
        | mk st3 ocs =>
          dsimp only
          have := ih st2 (k + 1)
          rw [h2] at this
          simpa using this

/-- The batch loop always produces one outcome per post: a failing post
never aborts the batch. -/
theorem processNewPosts_length (lookup : LookupOracle) (sendFor : Nat → SendOracle)
    (saveFails : Bool) (posts : List VKPost) (st : List PostKey) :
    (processNewPosts lookup sendFor saveFails posts st).2.length = posts.length := by
  rw [processNewPosts, processPostsLoop_length, List.length_reverse]

/-! ## Theorems: normalization invariance of the matcher (claim C4) -/

theorem trackScore_target_invariant (ta ta2 tt tt2 : Str) (tr : VKTrack)
    (h1 : normalizeString ta = normalizeString ta2)
    (h2 : normalizeString tt = normalizeString tt2) :
    trackScore ta tt tr = trackScore ta2 tt2 tr := by
  rw [trackScore, trackScore, h1, h2]

theorem trackScore_candidate_invariant (ta tt : Str) (tr tr2 : VKTrack)
    (h1 : normalizeString tr.artist = normalizeString tr2.artist)
    (h2 : normalizeString tr.title = normalizeString tr2.title) :
    trackScore ta tt tr = trackScore ta tt tr2 := by
  rw [trackScore, trackScore, h1, h2]

theorem findBestAudioMatch_target_invariant (tracks : List VKTrack)
    (ta ta2 tt tt2 : Str)
    (h1 : normalizeString ta = normalizeString ta2)
    (h2 : normalizeString tt = normalizeString tt2) :
    findBestAudioMatch tracks ta tt = findBestAudioMatch tracks ta2 tt2 := by
  rw [findBestAudioMatch, findBestAudioMatch]
  have : (fun tr => (tr, trackScore ta tt tr)) =
      (fun tr => (tr, trackScore ta2 tt2 tr)) := by
    funext tr
    rw [trackScore_target_invariant ta ta2 tt tt2 tr h1 h2]
  rw [this]


/-! ## Theorems: the example matcher run (ℚ products evaluated by norm_num,
since kernel reduction stops at the gcd inside Rat multiplication) -/

theorem exTrack_score_one : trackScore ("A".data) ("B".data) exTrack = 1 := by
  rw [trackScore]
  have e1 : calculateStringSimilarity (normalizeString ("A".data))
      (normalizeString exTrack.artist) = 1 := by decide
  have e2 : calculateStringSimilarity (normalizeString ("B".data))
      (normalizeString exTrack.title) = 1 := by decide
  rw [e1, e2]
  norm_num

theorem exTrackFar_score_zero : trackScore ("A".data) ("B".data) exTrackFar = 0 := by
  rw [trackScore]
  have e1 : calculateStringSimilarity (normalizeString ("A".data))
      (normalizeString exTrackFar.artist) = 0 := by decide
  have e2 : calculateStringSimilarity (normalizeString ("B".data))
      (normalizeString exTrackFar.title) = 0 := by decide
  rw [e1, e2]
  norm_num

theorem exFindBest_eq :
    findBestAudioMatch [exTrackFar, exTrack] ("A".data) ("B".data) = some exTrack := by
  rw [findBestAudioMatch, if_neg (by decide)]
  dsimp only [List.map]
  rw [exTrack_score_one, exTrackFar_score_zero]
  norm_num [sortByDesc, insertDesc]

/-! ## Claim theorems -/

/-- Claim C1: for every item dispatched with at least one media unit (and
every send succeeding), the outbound units are exactly the expected
sequence — photos first (one `sendPhoto` for a single photo, one album
for two or more), then one animation per animation url in source order,
then one audio unit per audio ref carrying a url in source order, then
one document unit per generic document — with the composed caption
carried by the first unit only, every later unit captioned empty, and a
document unit captioned `Документ: {title}` when no text remains. -/
theorem C1_dispatch_order_and_captions (oracle : SendOracle)
    (h : ∀ i, oracle i = none) (text : Str) (photos gifs : List Str)
    (audios : List AudioPayload) (docs : List DocRef)
    (hm : ¬(photos = [] ∧ gifs = [] ∧
      audios.filter (fun a => a.url ≠ []) = [] ∧ docs = [])) :
    sendContentToTelegram oracle text photos gifs audios docs =
      expectedUnits (text ++ audioLinesText audios) photos gifs audios docs :=
  sendContent_allOk oracle h text photos gifs audios docs hm

theorem C1_dispatch_order_and_captions_witness :
    ((∀ i, exSendOk i = none) ∧
      ¬((["p1".data, "p2".data] : List Str) = [] ∧ (["g".data] : List Str) = [] ∧
        ([exAudioUrl, exAudioNoUrl].filter (fun a => a.url ≠ []) = []) ∧
        ([exDocRef] : List DocRef) = [])) ∧
    sendContentToTelegram exSendOk ("T".data) ["p1".data, "p2".data] ["g".data]
        [exAudioUrl, exAudioNoUrl] [exDocRef] =
      expectedUnits ("T".data ++ audioLinesText [exAudioUrl, exAudioNoUrl])
        ["p1".data, "p2".data] ["g".data] [exAudioUrl, exAudioNoUrl] [exDocRef] :=
  ⟨⟨fun _ => rfl, by decide⟩,
    C1_dispatch_order_and_captions exSendOk (fun _ => rfl) ("T".data)
      ["p1".data, "p2".data] ["g".data] [exAudioUrl, exAudioNoUrl] [exDocRef]
      (by decide)⟩

/-- Claim C5: the pairwise similarity of the source equals the claim's
reference definition (both empty → 1, one empty → 0, equal → 1,
containment → shorter/longer, otherwise 1 − lev/max-length with the
classic unit-cost edit distance), and always lies in [0, 1]. -/
theorem C5_similarity_reference (a b : Str) :
    levenshteinDistance a b = frontLev a b ∧
    calculateStringSimilarity a b = simSpec a b ∧
    0 ≤ calculateStringSimilarity a b ∧ calculateStringSimilarity a b ≤ 1 :=
  ⟨levenshteinDistance_eq_frontLev a b, (sim_eq_and_bounds a b).1,
    (sim_eq_and_bounds a b).2.1, (sim_eq_and_bounds a b).2.2⟩

/-- Claim C6: the fuzzy matcher returns no match exactly when every
candidate scores below 0.70; a returned match is a candidate scoring at
least 0.70 whose score is maximal, and it is the first-seen candidate
attaining that score (stable tie-break, no further key). -/
theorem C6_matcher_threshold (tracks : List VKTrack) (ta tt : Str) :
    (findBestAudioMatch tracks ta tt = none ↔
      ∀ tr ∈ tracks, trackScore ta tt tr < 0.7) ∧
    (∀ tr, findBestAudioMatch tracks ta tt = some tr →
      tr ∈ tracks ∧ 0.7 ≤ trackScore ta tt tr ∧
      (∀ u ∈ tracks, trackScore ta tt u ≤ trackScore ta tt tr) ∧
      tracks.find? (fun u => trackScore ta tt u == trackScore ta tt tr) =
        some tr) := by
  have e : (0.7 : ℚ) = 7 / 10 := by norm_num
  rw [e]
  exact findBestAudioMatch_spec tracks ta tt

theorem C6_matcher_threshold_witness :
    findBestAudioMatch [exTrackFar, exTrack] ("A".data) ("B".data) = some exTrack ∧
    exTrack ∈ [exTrackFar, exTrack] ∧
    (0.7 : ℚ) ≤ trackScore ("A".data) ("B".data) exTrack := by
  have h := (C6_matcher_threshold [exTrackFar, exTrack] ("A".data) ("B".data)).2
    exTrack exFindBest_eq
  exact ⟨exFindBest_eq, h.1, h.2.1⟩

/-- Claim C7: the three-way GIF test (extension `gif`, or numeric subtype
3, or title ending `.gif` case-insensitively) partitions the document
payloads exclusively: the animation list is exactly the urls of the
payloads passing the test, the generic-document list is exactly the
records of the payloads failing it, the two parts account for every
document payload, and a payload with extension `gif` always passes. -/
theorem C7_gif_partition (p : VKPost) (d : DocPayload) (hd : d.ext = "gif".data) :
    getGifAttachments p = ((docPayloads p).filter gifDocTest).map (fun x => x.url) ∧
    getDocumentAttachments p =
      ((docPayloads p).filter (fun x => ! gifDocTest x)).map
        (fun x => (⟨x.url, x.title, x.ext⟩ : DocRef)) ∧
    ((docPayloads p).filter gifDocTest).length +
      ((docPayloads p).filter (fun x => ! gifDocTest x)).length =
        (docPayloads p).length ∧
    gifDocTest d = true :=
  ⟨getGifAttachments_eq p, getDocumentAttachments_eq p,
    filter_not_partition gifDocTest (docPayloads p), gifDocTest_of_ext d hd⟩

theorem C7_gif_partition_witness :
    exGifDoc.ext = "gif".data ∧
    getGifAttachments exMixedPost =
      ((docPayloads exMixedPost).filter gifDocTest).map (fun x => x.url) ∧
    gifDocTest exGifDoc = true :=
  ⟨by decide, (C7_gif_partition exMixedPost exGifDoc (by decide)).1,
    (C7_gif_partition exMixedPost exGifDoc (by decide)).2.2.2⟩

/-- Claim C2 (amended): every error raised during a single post's
processing is caught inside `processPost`, so the batch loop always
produces one outcome per post; but a caught error does NOT mark the
post's key as processed — the state, trace and outcome show the post
left unmarked with no calls attempted. -/
theorem C2_error_caught_without_marking (lookup : LookupOracle)
    (sendFor : Nat → SendOracle) (saveFails : Bool) (posts : List VKPost)
    (st0 : List PostKey) (send : SendOracle) (st : List PostKey) (post : VKPost)
    (hseen : st.contains (post.owner_id, post.id) = false)
    (hpin : post.is_pinned = false)
    (herr : getPhotoAttachments post = .error ()) :
    (processNewPosts lookup sendFor saveFails posts st0).2.length = posts.length ∧
    processPost lookup send saveFails st post = (st, [], .caughtError) :=
  ⟨processNewPosts_length lookup sendFor saveFails posts st0,
    processPost_extract_error lookup send saveFails st post hseen hpin herr⟩

theorem C2_error_caught_without_marking_witness :
    (([] : List PostKey).contains (exBadPost.owner_id, exBadPost.id) = false ∧
      exBadPost.is_pinned = false ∧ getPhotoAttachments exBadPost = .error ()) ∧
    (processNewPosts exLookup (fun _ => exSendOk) false [exBadPost, exEmptyPost]
        []).2.length = 2 ∧
    processPost exLookup exSendOk false [] exBadPost = ([], [], .caughtError) :=
  ⟨⟨by decide, by decide, by decide⟩,
    C2_error_caught_without_marking exLookup (fun _ => exSendOk) false
      [exBadPost, exEmptyPost] [] exSendOk [] exBadPost (by decide) (by decide)
      (by decide)⟩

/-- Claim C2 counterexample: a post whose photo attachment has an empty
renditions array throws inside extraction; the error is caught (the
outcome is `caughtError`, not a crash), yet the post's key is NOT added
to the processed set, contradicting the claim that a caught error still
results in marking as processed. -/
theorem C2_counterexample :
    processPost exLookup exSendOk false [] exBadPost = ([], [], .caughtError) ∧
    (([] : List PostKey).contains (exBadPost.owner_id, exBadPost.id) = false) := by
  constructor
  · decide
  · decide

/-- Claim C3 (amended): audio refs are never dropped — the processed list
relates one-to-one to the input, a ref with a url passes through
unchanged, and a ref whose resolution fails or finds nothing is kept
without a url; every kept ref without a url but with artist and title is
rendered as the plain-text line `🎵 {artist} - {title}` inside the
composed caption, and the audio units actually sent are exactly the refs
that carry a url. -/
theorem C3_audio_refs_kept (lookup : LookupOracle) (as : List AudioPayload)
    (text : Str) (audios : List AudioPayload) (a : AudioPayload)
    (ha : a ∈ audios) (h1 : a.url = []) (h2 : a.artist ≠ []) (h3 : a.title ≠ [])
    (c : Str) (photos gifs : List Str) (audios2 : List AudioPayload)
    (docs : List DocRef) :
    List.Forall₂ (fun x o =>
        (x.url ≠ [] → o = x) ∧
        (x.url = [] → o = x ∨ (o.url ≠ [] ∧ o.artist = x.artist ∧ o.title = x.title)))
      as (resolveAudios lookup as) ∧
    ("\n🎵 ".data ++ a.artist ++ " - ".data ++ a.title) <:+:
      (text ++ audioLinesText audios) ∧
    (expectedUnits c photos gifs audios2 docs).countP isAudioCall =
      (audios2.filter (fun x => x.url ≠ [])).length :=
  ⟨resolveAudios_forall2 lookup as, audioLine_infix text audios a ha h1 h2 h3,
    countP_audio_expectedUnits c photos gifs audios2 docs⟩

theorem C3_audio_refs_kept_witness :
    (exAudioNoUrl ∈ [exAudioNoUrl] ∧ exAudioNoUrl.url = [] ∧
      exAudioNoUrl.artist ≠ [] ∧ exAudioNoUrl.title ≠ []) ∧
    ("\n🎵 ".data ++ exAudioNoUrl.artist ++ " - ".data ++ exAudioNoUrl.title) <:+:
      (([] : Str) ++ audioLinesText [exAudioNoUrl]) :=
  ⟨⟨by decide, by decide, by decide, by decide⟩,
    (C3_audio_refs_kept exLookup [] [] [exAudioNoUrl] exAudioNoUrl (by decide)
      (by decide) (by decide) (by decide) [] [] [] [] []).2.1⟩

/-- Claim C3 counterexample: the rendered line uses `🎵`, not the `♪`
the claim states — with one kept url-less ref, the claimed `♪`-line is
not part of the composed caption while the `🎵`-line is. -/
theorem C3_counterexample :
    ¬ (("♪ ".data ++ exAudioNoUrl.artist ++ " - ".data ++ exAudioNoUrl.title) <:+:
        (([] : Str) ++ audioLinesText [exAudioNoUrl])) ∧
    (("🎵 ".data ++ exAudioNoUrl.artist ++ " - ".data ++ exAudioNoUrl.title) <:+:
        (([] : Str) ++ audioLinesText [exAudioNoUrl])) := by
  constructor
  · decide
  · decide

/-- Claim C4 (amended): the normalization lowercases, keeps exactly the
ASCII letters, digits, UNDERSCORE and whitespace (the JavaScript `\w`
class keeps `_`, which the claim's "letters, digits, or whitespace" does
not), collapses whitespace runs and trims — equivalently it emits the
whitespace-separated words joined by single spaces; and the matcher
depends on its inputs only through this normalization, on the target and
the candidate side alike. -/
theorem C4_normalization (s : Str) (tracks : List VKTrack) (ta ta2 tt tt2 : Str)
    (h1 : normalizeString ta = normalizeString ta2)
    (h2 : normalizeString tt = normalizeString tt2)
    (tr tr2 : VKTrack)
    (h3 : normalizeString tr.artist = normalizeString tr2.artist)
    (h4 : normalizeString tr.title = normalizeString tr2.title) :
    normalizeString s = normalizeAmendedSpec s ∧
    findBestAudioMatch tracks ta tt = findBestAudioMatch tracks ta2 tt2 ∧
    trackScore ta tt tr = trackScore ta tt tr2 :=
  ⟨normalizeString_eq_amendedSpec s,
    findBestAudioMatch_target_invariant tracks ta ta2 tt tt2 h1 h2,
    trackScore_candidate_invariant ta tt tr tr2 h3 h4⟩

theorem C4_normalization_witness :
    (normalizeString ("A!".data) = normalizeString ("a".data) ∧
      normalizeString ("  B ?C ".data) = normalizeString ("b c".data) ∧
      normalizeString exTrack.artist = normalizeString exTrack.artist ∧
      normalizeString exTrack.title = normalizeString exTrack.title) ∧
    normalizeString ("Mr. Blue_Sky  (remastered)".data) =
      normalizeAmendedSpec ("Mr. Blue_Sky  (remastered)".data) :=
  ⟨⟨by decide, by decide, rfl, rfl⟩,
    (C4_normalization ("Mr. Blue_Sky  (remastered)".data) [] ("A!".data) ("a".data)
      ("  B ?C ".data) ("b c".data) (by decide) (by decide) exTrack exTrack rfl
      rfl).1⟩

/-- Claim C4 counterexample: the source keeps the underscore (it is in
the JavaScript `\w` class), while stripping exactly the characters that
are not letters, digits or whitespace would drop it — the two readings
differ on `a_b`. -/
theorem C4_counterexample :
    normalizeString ("a_b".data) = "a_b".data ∧
    claimNormalize ("a_b".data) = "ab".data ∧
    normalizeString ("a_b".data) ≠ claimNormalize ("a_b".data) := by
  refine ⟨by decide, by decide, by decide⟩

/-- Claim C8: when an outbound send throws during dispatch of an item
with media, the emitted calls are the attempted prefix followed by
exactly one fallback — a single text message carrying the unsent caption
annotated with the error marker — when unsent caption text remains, and
by nothing when none remains (the fallback's own failure is only logged,
so no further calls occur either way); moreover the failure happened at
the last attempted call and every earlier call succeeded. -/
theorem C8_single_fallback (oracle : SendOracle) (text : Str)
    (photos gifs : List Str) (audios : List AudioPayload) (docs : List DocRef)
    (hm : ¬(photos = [] ∧ gifs = [] ∧
      audios.filter (fun a => a.url ≠ []) = [] ∧ docs = []))
    (tr : List TgCall) (t : Str) (idx : Nat) (m : Str)
    (hfail : sendCore oracle (text ++ audioLinesText audios) photos gifs audios docs =
      .failed tr t idx m) :
    sendContentToTelegram oracle text photos gifs audios docs =
      tr ++ (if t ≠ [] then [TgCall.sendMessage (errWrap t m)] else []) ∧
    tr.length = idx ∧ 1 ≤ idx ∧ oracle (idx - 1) = some m ∧
    (∀ i < idx - 1, oracle i = none) := by
  have hc := sendCore_consult oracle (text ++ audioLinesText audios) photos gifs
    audios docs
  rw [hfail] at hc
  dsimp only at hc
  refine ⟨?_, hc⟩
  rw [sendContentToTelegram]
  simp only [if_neg hm]
  rw [hfail]

theorem C8_single_fallback_witness :
    (¬((["p".data] : List Str) = [] ∧ ([] : List Str) = [] ∧
        ([] : List AudioPayload).filter (fun a => a.url ≠ []) = [] ∧
        ([] : List DocRef) = []) ∧
      sendCore exSendFail ("T".data ++ audioLinesText []) ["p".data] [] [] [] =
        .failed [TgCall.sendPhoto ("p".data) ("T".data)] ("T".data) 1
          ("Error: boom".data)) ∧
    sendContentToTelegram exSendFail ("T".data) ["p".data] [] [] [] =
      [TgCall.sendPhoto ("p".data) ("T".data)] ++
        (if ("T".data : Str) ≠ [] then
          [TgCall.sendMessage (errWrap ("T".data) ("Error: boom".data))] else []) :=
  ⟨⟨by decide, by decide⟩,
    (C8_single_fallback exSendFail ("T".data) ["p".data] [] [] [] (by decide)
      [TgCall.sendPhoto ("p".data) ("T".data)] ("T".data) 1 ("Error: boom".data)
      (by decide)).1⟩

/-- Claim C9 (amended): the animation, audio, link and generic-document
extractions are pure, order-preserving filter+maps over the attachment
list, and an empty attachment list yields five empty lists with the post
unchanged; photo extraction returns the largest-area url per photo but
hands back a post whose photo `sizes` arrays have been sorted IN PLACE
(the one shared mutation of the input). -/
theorem C9_extractors (p : VKPost)
    (hwf : ∀ q : PhotoPayload, Attachment.photo q ∈ attachmentList p → q.sizes ≠ [])
    (p0 : VKPost) (h0 : p0.attachments = some []) :
    getGifAttachments p = (attachmentList p).filterMap (fun a =>
        match a with
        | .doc d => if gifDocTest d then some d.url else none
        | _ => none) ∧
    getAudioAttachments p = (attachmentList p).filterMap (fun a =>
        match a with
        | .audio au => some (⟨au.url, au.artist, au.title⟩ : AudioPayload)
        | _ => none) ∧
    getLinkAttachments p = (attachmentList p).filterMap (fun a =>
        match a with
        | .link l => some l.url
        | _ => none) ∧
    getDocumentAttachments p = ((docPayloads p).filter (fun d => ! gifDocTest d)).map
        (fun d => (⟨d.url, d.title, d.ext⟩ : DocRef)) ∧
    getPhotoAttachments p = .ok
      ((attachmentList p).filterMap (fun a =>
        match a with
        | .photo q => ((sortByDesc photoSizeArea q.sizes).head?).map (fun z => z.url)
        | _ => none),
      { p with attachments := p.attachments.map (fun as => as.map (fun a =>
          match a with
          | .photo q => .photo ⟨sortByDesc photoSizeArea q.sizes⟩
          | b => b)) }) ∧
    (getPhotoAttachments p0 = .ok ([], p0) ∧ getGifAttachments p0 = [] ∧
      getAudioAttachments p0 = [] ∧ getLinkAttachments p0 = [] ∧
      getDocumentAttachments p0 = []) :=
  ⟨getGifAttachments_filterMap p, getAudioAttachments_eq p,
    getLinkAttachments_eq p, getDocumentAttachments_eq p,
    getPhotoAttachments_ok p hwf, extractors_empty p0 h0⟩

theorem C9_extractors_witness :
    ((∀ q : PhotoPayload, Attachment.photo q ∈ attachmentList exPhotoPost →
        q.sizes ≠ []) ∧ exEmptyPost.attachments = some []) ∧
    getPhotoAttachments exEmptyPost = .ok ([], exEmptyPost) ∧
    getGifAttachments exMixedPost = (attachmentList exMixedPost).filterMap (fun a =>
      match a with
      | .doc d => if gifDocTest d then some d.url else none
      | _ => none) := by
  have hwf : ∀ q : PhotoPayload, Attachment.photo q ∈ attachmentList exPhotoPost →
      q.sizes ≠ [] := by
    intro q hq
    simp only [exPhotoPost, attachmentList, List.mem_singleton] at hq
    cases hq
    decide
  exact ⟨⟨hwf, rfl⟩,
    (C9_extractors exPhotoPost hwf exEmptyPost rfl).2.2.2.2.2.1,
    (C9_extractors exMixedPost (by intro q hq; simp [exMixedPost, attachmentList] at hq)
      exEmptyPost rfl).1⟩

/-- Claim C9 counterexample: photo extraction does NOT leave the input
post unchanged — on a photo whose renditions are stored in ascending
area order it hands back a post with that photo's `sizes` array
reordered, the trace of the source's in-place `sizes.sort`. -/
theorem C9_counterexample :
    getPhotoAttachments exPhotoPost = .ok (["big".data], exPhotoPostSorted) ∧
    exPhotoPostSorted ≠ exPhotoPost := by
  constructor
  · decide
  · decide

/-- Claim C10: the dispatch step never prevents the marking that follows
it — for EVERY send oracle (all sends failing and the fallback failing
included), an unseen unpinned post whose extraction succeeds ends with
its key appended to the processed set and outcome `success`. -/
theorem C10_dispatch_never_blocks_marking (lookup : LookupOracle)
    (send : SendOracle) (st : List PostKey) (post : VKPost)
    (hseen : st.contains (post.owner_id, post.id) = false)
    (hpin : post.is_pinned = false)
    (us : List Str) (post2 : VKPost)
    (hok : getPhotoAttachments post = .ok (us, post2)) :
    (processPost lookup send false st post).1 = st ++ [(post.owner_id, post.id)] ∧
    (processPost lookup send false st post).2.2 = .success := by
  rw [processPost_marks lookup send st post hpin us post2 hok hseen]
  exact ⟨rfl, rfl⟩

theorem C10_dispatch_never_blocks_marking_witness :
    (([] : List PostKey).contains (exPhotoPost.owner_id, exPhotoPost.id) = false ∧
      exPhotoPost.is_pinned = false ∧
      getPhotoAttachments exPhotoPost = .ok (["big".data], exPhotoPostSorted)) ∧
    (processPost exLookup exSendFail false [] exPhotoPost).1 =
      [] ++ [(exPhotoPost.owner_id, exPhotoPost.id)] ∧
    (processPost exLookup exSendFail false [] exPhotoPost).2.2 = .success :=
  ⟨⟨by decide, by decide, by decide⟩,
    C10_dispatch_never_blocks_marking exLookup exSendFail [] exPhotoPost
      (by decide) (by decide) ["big".data] exPhotoPostSorted (by decide)⟩

end VKTG
